import Mathlib

/-!
Shallow embedding of the incstats incremental weighted-statistics library
(header `incstats.h`) and verification of its specification claims.

The accumulator ("buffer") is modelled as a total map `Nat → K` over a field
`K`; each C assignment `buffer[i] = e` becomes a `Function.update`.  Machine
`uint64_t` arithmetic in `n_choose_k` is modelled on `Nat` with explicit
reduction modulo `2 ^ 64`.  Exact real/field arithmetic replaces IEEE doubles;
`Real.sqrt` models C `sqrt` where it occurs.  A second embedding on `List K`
with `Option`-returning indexing is used for the bounds-safety claim.
-/

namespace Incstats

/-- Reduction modulo `2 ^ 64`, modelling C `uint64_t` overflow. -/
def u64 (a : Nat) : Nat := a % (2 ^ 64)

/-- C `uint64_t` subtraction `a - b` (wrapping), for `a, b < 2 ^ 64`. -/
def u64sub (a b : Nat) : Nat := (a + (2 ^ 64 - b % 2 ^ 64)) % 2 ^ 64

/-- `incstats_pow`: computes `x ^ y` by repeated multiplication; `y = 0`
returns `1`.  Translated from the C source loop. -/
def incstats_pow {K : Type} [Field K] (x : K) (y : Nat) : K :=
  if y = 0 then 1
  else (List.range (y - 1)).foldl (fun result _ => result * x) x

/-- `n_choose_k`: binomial coefficient via the multiplicative formula with the
smaller-side replacement and the exact-division branches, in wrapping
`uint64_t` arithmetic, translated from the C source. -/
def n_choose_k (n k : Nat) : Nat :=
  let k := if k > u64sub n k then u64sub n k else k
  (((List.range k).map (fun j => j + 1)).foldl
    (fun st j =>
      let result := st.1
      let n := st.2
      let result :=
        if n % j = 0 then u64 (result * (n / j))
        else if result % j = 0 then u64 (result / j * n)
        else u64 (result * n) / j
      (result, u64sub n 1))
    (1, n)).1

/-- Buffer write: `buffer[i] = v`. -/
def upd {K : Type} (b : Nat → K) (i : Nat) (v : K) : Nat → K :=
  Function.update b i v

/-- The zero-initialized buffer. -/
def zeroBuf {K : Type} [Field K] : Nat → K := fun _ => 0

/-- `incstats_mean`: running weighted mean update, translated from the C
source (slot 0 is updated first and the new value is read back). -/
def incstats_mean {K : Type} [Field K] (x w : K) (b : Nat → K) : Nat → K :=
  let b := upd b 0 (b 0 + w)
  upd b 1 (b 1 + w / b 0 * (x - b 1))

/-- `incstats_variance`: running weighted mean/variance update, translated
from the C source. -/
def incstats_variance {K : Type} [Field K] (x w : K) (b : Nat → K) : Nat → K :=
  let b := upd b 0 (b 0 + w)
  let new_mean := b 1 + w / b 0 * (x - b 1)
  let b := upd b 2 (b 2 + w * (x - b 1) * (x - new_mean))
  upd b 1 new_mean

/-- `incstats_skewness`: running weighted moment update up to order 3,
translated from the C source (slot 3 written first, then 2, 1, 0). -/
def incstats_skewness {K : Type} [Field K] (x w : K) (b : Nat → K) : Nat → K :=
  let new_sum_w := b 0 + w
  let b := upd b 3 (b 3 + 3 * (b 2) * (-w * (x - b 1) / new_sum_w)
    + b 0 * incstats_pow (-w * (x - b 1) / new_sum_w) 3
    + w * incstats_pow (b 0 * (x - b 1) / new_sum_w) 3)
  let b := upd b 2 (b 2 + b 0 * incstats_pow (-w * (x - b 1) / new_sum_w) 2
    + w * incstats_pow (b 0 * (x - b 1) / new_sum_w) 2)
  let b := upd b 1 (b 1 + w / new_sum_w * (x - b 1))
  upd b 0 new_sum_w

/-- `incstats_kurtosis`: running weighted moment update up to order 4,
translated from the C source (slot 4 written first, then 3, 2, 1, 0). -/
def incstats_kurtosis {K : Type} [Field K] (x w : K) (b : Nat → K) : Nat → K :=
  let new_sum_w := b 0 + w
  let b := upd b 4 (b 4 + 4 * (b 3) * (-w * (x - b 1) / new_sum_w)
    + 6 * (b 2) * incstats_pow (-w * (x - b 1) / new_sum_w) 2
    + b 0 * incstats_pow (-w * (x - b 1) / new_sum_w) 4
    + w * incstats_pow (b 0 * (x - b 1) / new_sum_w) 4)
  let b := upd b 3 (b 3 + 3 * (b 2) * (-w * (x - b 1) / new_sum_w)
    + b 0 * incstats_pow (-w * (x - b 1) / new_sum_w) 3
    + w * incstats_pow (b 0 * (x - b 1) / new_sum_w) 3)
  let b := upd b 2 (b 2 + b 0 * incstats_pow (-w * (x - b 1) / new_sum_w) 2
    + w * incstats_pow (b 0 * (x - b 1) / new_sum_w) 2)
  let b := upd b 1 (b 1 + w / new_sum_w * (x - b 1))
  upd b 0 new_sum_w

/-- The index sequence `p, p-1, ..., 2` of the descending loop in
`incstats_central_moment` (empty for `p ≤ 1`). -/
def descList (p : Nat) : List Nat :=
  (((List.range (p - 1)).map (fun i => i + 2))).reverse

/-- The inner `tmp` accumulation of `incstats_central_moment`: the loop
`for (k = i - 2; k > 0; k--) tmp += C(i,k) * buffer[i-k] * pow(d, k)`,
translated from the C source (`s` is `new_sum_w`). -/
def cm_tmp {K : Type} [Field K] (x w s : K) (b : Nat → K) (i : Nat) : K :=
  (((List.range (i - 2)).map (fun k => k + 1)).reverse).foldl
    (fun tmp k => tmp + (n_choose_k i k : K) * b (i - k) *
      incstats_pow (-w * (x - b 1) / s) k) 0

/-- The value written into `buffer[i]` by one iteration of the descending
loop of `incstats_central_moment`. -/
def cm_val {K : Type} [Field K] (x w s : K) (b : Nat → K) (i : Nat) : K :=
  b i + cm_tmp x w s b i
    + b 0 * incstats_pow (-w * (x - b 1) / s) i
    + w * incstats_pow (b 0 * (x - b 1) / s) i

/-- One iteration of the descending loop of `incstats_central_moment`. -/
def cm_body {K : Type} [Field K] (x w s : K) (b : Nat → K) (i : Nat) :
    Nat → K :=
  upd b i (cm_val x w s b i)

/-- `incstats_central_moment`: generalized order-`p` central moment update,
translated from the C source: descending loop over orders `p, ..., 2`, then
mean (slot 1), then cumulative weight (slot 0). -/
def incstats_central_moment {K : Type} [Field K] (x w : K) (b : Nat → K)
    (p : Nat) : Nat → K :=
  let new_sum_w := b 0 + w
  let b := (descList p).foldl (cm_body x w new_sum_w) b
  let b := upd b 1 (b 1 + w / new_sum_w * (x - b 1))
  upd b 0 new_sum_w

lemma upd_self {K : Type} (b : Nat → K) (i : Nat) (v : K) : upd b i v i = v := by
  simp [upd]

lemma upd_ne {K : Type} (b : Nat → K) (i j : Nat) (v : K) (h : j ≠ i) :
    upd b i v j = b j := by
  simp [upd, Function.update_noteq h]

lemma incstats_pow_eq {K : Type} [Field K] (x : K) (y : Nat) :
    incstats_pow x y = x ^ y := by
  have aux : ∀ (n : Nat) (a : K),
      (List.range n).foldl (fun result _ => result * x) a = a * x ^ n := by
    intro n
    induction n with
    | zero => intro a; simp
    | succ m ih =>
      intro a
      rw [List.range_succ, List.foldl_append]
      simp [ih, pow_succ, mul_assoc]
  unfold incstats_pow
  rcases Nat.eq_zero_or_pos y with h | h
  · simp [h]
  · have hy : ¬ y = 0 := Nat.pos_iff_ne_zero.mp h
    simp only [hy, if_false, aux]
    rw [← pow_succ']
    congr 1
    omega

lemma n_choose_k_3_1 : n_choose_k 3 1 = 3 := by decide

lemma n_choose_k_4_1 : n_choose_k 4 1 = 4 := by decide

lemma n_choose_k_4_2 : n_choose_k 4 2 = 6 := by decide

lemma descList_zero : descList 0 = [] := rfl

lemma descList_one : descList 1 = [] := rfl

lemma descList_succ (p : Nat) (hp : 1 ≤ p) :
    descList (p + 1) = (p + 1) :: descList p := by
  unfold descList
  have h1 : p + 1 - 1 = p := by omega
  have h2 : List.range p = List.range (p - 1) ++ [p - 1] := by
    conv_lhs => rw [show p = (p - 1) + 1 by omega]
    exact List.range_succ _
  have h3 : p - 1 + 2 = p + 1 := by omega
  rw [h1, h2]
  simp [h3]

lemma foldl_ext_mem {α β : Type} (f g : β → α → β) :
    ∀ (L : List α) (a : β), (∀ t k, k ∈ L → f t k = g t k) →
      L.foldl f a = L.foldl g a := by
  intro L
  induction L with
  | nil => intro a _; rfl
  | cons k L ih =>
    intro a h
    simp only [List.foldl_cons]
    rw [h a k (by simp)]
    exact ih _ (fun t m hm => h t m (by simp [hm]))

lemma cm_tmp_congr {K : Type} [Field K] (x w s : K) (b b' : Nat → K)
    (i : Nat) (hi : 1 ≤ i) (h : ∀ m, m ≤ i → b' m = b m) :
    cm_tmp x w s b' i = cm_tmp x w s b i := by
  unfold cm_tmp
  exact foldl_ext_mem _ _ _ 0 (fun t k _ => by
    rw [h 1 hi, h (i - k) (Nat.sub_le i k)])

lemma cm_val_congr {K : Type} [Field K] (x w s : K) (b b' : Nat → K)
    (i : Nat) (hi : 1 ≤ i) (h : ∀ m, m ≤ i → b' m = b m) :
    cm_val x w s b' i = cm_val x w s b i := by
  unfold cm_val
  rw [h i le_rfl, h 0 (Nat.zero_le i), h 1 hi,
    cm_tmp_congr x w s b b' i hi h]

/-- Characterization of the descending loop of `incstats_central_moment`:
slot `i` for `2 ≤ i ≤ p` receives `cm_val` computed from the pre-loop buffer;
all other slots are untouched. -/
lemma cm_foldl_char {K : Type} [Field K] (x w s : K) :
    ∀ (p : Nat) (b : Nat → K) (j : Nat),
      (descList p).foldl (cm_body x w s) b j =
        if 2 ≤ j ∧ j ≤ p then cm_val x w s b j else b j := by
  intro p
  induction p with
  | zero =>
    intro b j
    rw [descList_zero]
    simp only [List.foldl_nil]
    rw [if_neg (by omega)]
  | succ p ih =>
    intro b j
    rcases Nat.eq_zero_or_pos p with hp | hp
    · subst hp
      rw [descList_one]
      simp only [List.foldl_nil]
      rw [if_neg (by omega)]
    · rw [descList_succ p hp, List.foldl_cons]
      rw [ih]
      have hbody : cm_body x w s b (p + 1) = upd b (p + 1)
          (cm_val x w s b (p + 1)) := rfl
      rw [hbody]
      by_cases hj : 2 ≤ j ∧ j ≤ p
      · rw [if_pos hj, if_pos (by omega)]
        exact cm_val_congr x w s b _ j (by omega)
          (fun m hm => upd_ne _ _ _ _ (by omega))
      · rw [if_neg hj]
        by_cases hj2 : j = p + 1
        · subst hj2
          rw [upd_self, if_pos (by omega)]
        · rw [upd_ne _ _ _ _ hj2, if_neg (by omega)]

/-- Modelled from the spec: the snapshot formulation of the order-`p`
central-moment update — every new slot value is computed from the buffer
contents as they were before the call, and all of them are committed at
the end. -/
def incstats_central_moment_snapshot {K : Type} [Field K] (x w : K)
    (b : Nat → K) (p : Nat) : Nat → K :=
  fun j =>
    if j = 0 then b 0 + w
    else if j = 1 then b 1 + w / (b 0 + w) * (x - b 1)
    else if j ≤ p then cm_val x w (b 0 + w) b j
    else b j

/-- C3: a single `incstats_central_moment` call is equivalent to the
snapshot formulation: every written value is a function of the pre-call
buffer only, and committing all values computed from one pre-update
snapshot yields the same final buffer. -/
theorem claim_C3 (K : Type) [Field K] (x w : K) (b : Nat → K) (p : Nat) :
    incstats_central_moment x w b p =
      incstats_central_moment_snapshot x w b p := by
  funext j
  simp only [incstats_central_moment, incstats_central_moment_snapshot]
  rcases eq_or_ne j 0 with h0 | h0
  · subst h0
    rw [upd_self, if_pos rfl]
  rcases eq_or_ne j 1 with h1 | h1
  · subst h1
    rw [upd_ne _ _ _ _ h0, upd_self, cm_foldl_char, if_neg (by omega),
      if_neg h0, if_pos rfl]
  · rw [upd_ne _ _ _ _ h0, upd_ne _ _ _ _ h1, cm_foldl_char,
      if_neg h0, if_neg h1]
    by_cases hp : j ≤ p
    · rw [if_pos (by omega), if_pos hp]
    · rw [if_neg (by omega), if_neg hp]

/-- C10: for `p = 0` and `p = 1` the generalized update degenerates to
`incstats_mean`: only slots 0 and 1 are written, slot 0 becomes the old
weight plus `w`, and slot 1 becomes the old mean plus
`(w / new total weight) * (x - old mean)`. -/
theorem claim_C10 (K : Type) [Field K] (x w : K) (b : Nat → K) :
    incstats_central_moment x w b 0 = incstats_mean x w b ∧
    incstats_central_moment x w b 1 = incstats_mean x w b ∧
    incstats_mean x w b 0 = b 0 + w ∧
    incstats_mean x w b 1 = b 1 + w / (b 0 + w) * (x - b 1) ∧
    ∀ j : Nat, incstats_mean x w b (j + 2) = b (j + 2) := by
  have hmean : incstats_mean x w b =
      upd (upd b 0 (b 0 + w)) 1 (b 1 + w / (b 0 + w) * (x - b 1)) := by
    simp only [incstats_mean]
    rw [upd_self, upd_ne _ _ _ _ (by omega)]
  have hcm : ∀ p, p ≤ 1 → incstats_central_moment x w b p =
      incstats_mean x w b := by
    intro p hp
    simp only [incstats_central_moment]
    have hd : descList p = [] := by
      interval_cases p
      · exact descList_zero
      · exact descList_one
    rw [hd, List.foldl_nil, hmean]
    funext j
    rcases eq_or_ne j 0 with h0 | h0
    · subst h0
      rw [upd_self, upd_ne _ _ _ _ (by omega), upd_self]
    rcases eq_or_ne j 1 with h1 | h1
    · subst h1
      rw [upd_ne _ _ _ _ h0, upd_self, upd_self]
    · rw [upd_ne _ _ _ _ h0, upd_ne _ _ _ _ h1,
        upd_ne _ _ _ _ h1, upd_ne _ _ _ _ h0]
  refine ⟨hcm 0 (by omega), hcm 1 (by omega), ?_, ?_, ?_⟩
  · rw [hmean, upd_ne _ _ _ _ (by omega), upd_self]
  · rw [hmean, upd_self]
  · intro j
    rw [hmean, upd_ne _ _ _ _ (by omega), upd_ne _ _ _ _ (by omega)]

/-- Modelled from the claim (not from the source): a kurtosis update in which
the order-3 slot is written before the order-4 slot, so that the order-4
value reads the already-updated order-3 term of the same call.  Used only to
compare against the actual source order of `incstats_kurtosis`. -/
def incstats_kurtosis_claimed {K : Type} [Field K] (x w : K) (b : Nat → K) :
    Nat → K :=
  let new_sum_w := b 0 + w
  let b := upd b 3 (b 3 + 3 * (b 2) * (-w * (x - b 1) / new_sum_w)
    + b 0 * incstats_pow (-w * (x - b 1) / new_sum_w) 3
    + w * incstats_pow (b 0 * (x - b 1) / new_sum_w) 3)
  let b := upd b 4 (b 4 + 4 * (b 3) * (-w * (x - b 1) / new_sum_w)
    + 6 * (b 2) * incstats_pow (-w * (x - b 1) / new_sum_w) 2
    + b 0 * incstats_pow (-w * (x - b 1) / new_sum_w) 4
    + w * incstats_pow (b 0 * (x - b 1) / new_sum_w) 4)
  let b := upd b 2 (b 2 + b 0 * incstats_pow (-w * (x - b 1) / new_sum_w) 2
    + w * incstats_pow (b 0 * (x - b 1) / new_sum_w) 2)
  let b := upd b 1 (b 1 + w / new_sum_w * (x - b 1))
  upd b 0 new_sum_w

/-- Concrete buffer for the C4 counterexample:
slot 0 (weight) = 1, slot 2 (order-2 sum) = 1, all other slots 0. -/
def c4buf : Nat → ℚ := fun j => if j = 0 then 1 else if j = 2 then 1 else 0

/-- C4 counterexample: on a concrete buffer, the order-4 slot written by
`incstats_kurtosis` (which reads the pre-update order-3 slot) differs from
the value the claim describes (reading the already-updated order-3 slot):
the source yields 13/8 while the claimed discipline yields 37/8. -/
theorem claim_C4_counterexample :
    (incstats_kurtosis (1 : ℚ) 1 c4buf) 4 ≠
      (incstats_kurtosis_claimed (1 : ℚ) 1 c4buf) 4 := by
  norm_num [incstats_kurtosis, incstats_kurtosis_claimed, c4buf, upd,
    Function.update, incstats_pow, List.range, List.range.loop]

/-- C4 amended: in a single `incstats_kurtosis` call the new order-4 slot is
computed from the *pre-update* order-3 and order-2 slots (the order-4 slot is
written first): `buffer[4] += 4*b3*d + 6*b2*d^2 + b0*d^4 + w*e^4` with `b3`,
`b2` the values before the call. -/
theorem claim_C4_amended (K : Type) [Field K] (x w : K) (b : Nat → K) :
    (incstats_kurtosis x w b) 4 =
      b 4 + 4 * (b 3) * (-w * (x - b 1) / (b 0 + w))
      + 6 * (b 2) * (-w * (x - b 1) / (b 0 + w)) ^ 2
      + b 0 * (-w * (x - b 1) / (b 0 + w)) ^ 4
      + w * (b 0 * (x - b 1) / (b 0 + w)) ^ 4 := by
  simp only [incstats_kurtosis, incstats_pow_eq]
  rw [upd_ne _ _ _ _ (by omega), upd_ne _ _ _ _ (by omega),
    upd_ne _ _ _ _ (by omega), upd_ne _ _ _ _ (by omega), upd_self]

lemma cm_tmp_zero_w {K : Type} [Field K] (x s : K) (b : Nat → K) (i : Nat) :
    cm_tmp x 0 s b i = 0 := by
  unfold cm_tmp
  have aux : ∀ (L : List Nat) (a : K), (∀ k ∈ L, k ≠ 0) →
      L.foldl (fun tmp k => tmp + (n_choose_k i k : K) * b (i - k) *
        incstats_pow (-(0 : K) * (x - b 1) / s) k) a = a := by
    intro L
    induction L with
    | nil => intro a _; rfl
    | cons k L ih =>
      intro a h
      simp only [List.foldl_cons]
      have hterm : (n_choose_k i k : K) * b (i - k) *
          incstats_pow (-(0 : K) * (x - b 1) / s) k = 0 := by
        rw [incstats_pow_eq]
        have hbase : -(0 : K) * (x - b 1) / s = 0 := by simp
        rw [hbase, zero_pow (h k (by simp)), mul_zero]
      rw [hterm, add_zero]
      exact ih a (fun m hm => h m (by simp [hm]))
  apply aux
  intro k hk
  simp only [List.mem_reverse, List.mem_map, List.mem_range] at hk
  obtain ⟨m, _, hm⟩ := hk
  omega

/-- Helper buffer for witnesses: every slot holds 1. -/
def onesBuf : Nat → ℚ := fun _ => 1

/-- C7: an update with weight 0 on a buffer with positive cumulative weight
is the identity on the buffer, for every update function of the family. -/
theorem claim_C7 (K : Type) [LinearOrderedField K] (x : K) (b : Nat → K)
    (p : Nat) (hb : 0 < b 0) :
    incstats_mean x 0 b = b ∧ incstats_variance x 0 b = b ∧
    incstats_skewness x 0 b = b ∧ incstats_kurtosis x 0 b = b ∧
    incstats_central_moment x 0 b p = b := by
  refine ⟨?_, ?_, ?_, ?_, ?_⟩
  · funext j
    simp only [incstats_mean]
    rcases eq_or_ne j 1 with h1 | h1
    · subst h1
      rw [upd_self, upd_ne _ _ _ _ (by omega)]
      simp
    rw [upd_ne _ _ _ _ h1]
    rcases eq_or_ne j 0 with h0 | h0
    · subst h0; rw [upd_self, add_zero]
    · rw [upd_ne _ _ _ _ h0]
  · funext j
    simp only [incstats_variance]
    rcases eq_or_ne j 1 with h1 | h1
    · subst h1
      simp [upd, Function.update]
    rw [upd_ne _ _ _ _ h1]
    rcases eq_or_ne j 2 with h2 | h2
    · subst h2
      simp [upd, Function.update]
    rw [upd_ne _ _ _ _ h2]
    rcases eq_or_ne j 0 with h0 | h0
    · subst h0; rw [upd_self, add_zero]
    · rw [upd_ne _ _ _ _ h0]
  · funext j
    simp only [incstats_skewness, incstats_pow_eq]
    rcases eq_or_ne j 0 with h0 | h0
    · subst h0; rw [upd_self, add_zero]
    rw [upd_ne _ _ _ _ h0]
    rcases eq_or_ne j 1 with h1 | h1
    · subst h1
      simp [upd, Function.update]
    rw [upd_ne _ _ _ _ h1]
    rcases eq_or_ne j 2 with h2 | h2
    · subst h2
      simp [upd, Function.update]
    rw [upd_ne _ _ _ _ h2]
    rcases eq_or_ne j 3 with h3 | h3
    · subst h3
      simp [upd, Function.update]
    · rw [upd_ne _ _ _ _ h3]
  · funext j
    simp only [incstats_kurtosis, incstats_pow_eq]
    rcases eq_or_ne j 0 with h0 | h0
    · subst h0; rw [upd_self, add_zero]
    rw [upd_ne _ _ _ _ h0]
    rcases eq_or_ne j 1 with h1 | h1
    · subst h1
      simp [upd, Function.update]
    rw [upd_ne _ _ _ _ h1]
    rcases eq_or_ne j 2 with h2 | h2
    · subst h2
      simp [upd, Function.update]
    rw [upd_ne _ _ _ _ h2]
    rcases eq_or_ne j 3 with h3 | h3
    · subst h3
      simp [upd, Function.update]
    rw [upd_ne _ _ _ _ h3]
    rcases eq_or_ne j 4 with h4 | h4
    · subst h4
      simp [upd, Function.update]
    · rw [upd_ne _ _ _ _ h4]
  · funext j
    simp only [incstats_central_moment]
    rcases eq_or_ne j 0 with h0 | h0
    · subst h0; rw [upd_self, add_zero]
    rw [upd_ne _ _ _ _ h0]
    rcases eq_or_ne j 1 with h1 | h1
    · subst h1
      rw [upd_self, cm_foldl_char, if_neg (by omega)]
      simp
    · rw [upd_ne _ _ _ _ h1, cm_foldl_char]
      by_cases hj : 2 ≤ j ∧ j ≤ p
      · rw [if_pos hj]
        unfold cm_val
        rw [cm_tmp_zero_w]
        simp only [incstats_pow_eq]
        have hbase : -(0 : K) * (x - b 1) / (b 0 + 0) = 0 := by simp
        rw [hbase, zero_pow (by omega : j ≠ 0)]
        simp
      · rw [if_neg hj]

/-- Witness for C7 at a concrete input. -/
theorem claim_C7_witness :
    0 < onesBuf 0 ∧
    (incstats_mean 2 0 onesBuf = onesBuf ∧
     incstats_variance 2 0 onesBuf = onesBuf ∧
     incstats_skewness 2 0 onesBuf = onesBuf ∧
     incstats_kurtosis 2 0 onesBuf = onesBuf ∧
     incstats_central_moment 2 0 onesBuf 3 = onesBuf) :=
  ⟨zero_lt_one, claim_C7 ℚ 2 onesBuf 3 zero_lt_one⟩

/-- Feeding a stream of `(x, w)` samples through an update function. -/
def runUpd {K : Type} [Field K] (f : K → K → (Nat → K) → Nat → K)
    (l : List (K × K)) (b : Nat → K) : Nat → K :=
  l.foldl (fun b q => f q.1 q.2 b) b

/-- Sum of the weights of a stream. -/
def wsum {K : Type} [Field K] (l : List (K × K)) : K :=
  (l.map fun q => q.2).sum

/-- Weighted sum of the values of a stream. -/
def wxsum {K : Type} [Field K] (l : List (K × K)) : K :=
  (l.map fun q => q.2 * q.1).sum

/-- An update function treats slots 0 and 1 exactly as `incstats_mean`
does. -/
def MeanLike {K : Type} [Field K] (f : K → K → (Nat → K) → Nat → K) : Prop :=
  ∀ (x w : K) (b : Nat → K), f x w b 0 = b 0 + w ∧
    f x w b 1 = b 1 + w / (b 0 + w) * (x - b 1)

lemma meanLike_mean {K : Type} [Field K] :
    MeanLike (incstats_mean (K := K)) := by
  intro x w b
  constructor
  · simp only [incstats_mean]
    rw [upd_ne _ _ _ _ (by omega), upd_self]
  · simp only [incstats_mean]
    rw [upd_self, upd_ne _ _ _ _ (by omega), upd_self]

lemma meanLike_variance {K : Type} [Field K] :
    MeanLike (incstats_variance (K := K)) := by
  intro x w b
  constructor
  · simp only [incstats_variance]
    rw [upd_ne _ _ _ _ (by omega), upd_ne _ _ _ _ (by omega), upd_self]
  · simp only [incstats_variance]
    rw [upd_self, upd_ne _ _ _ _ (by omega), upd_self]

lemma meanLike_skewness {K : Type} [Field K] :
    MeanLike (incstats_skewness (K := K)) := by
  intro x w b
  constructor
  · simp only [incstats_skewness]
    rw [upd_self]
  · simp only [incstats_skewness]
    rw [upd_ne _ _ _ _ (by omega), upd_self, upd_ne _ _ _ _ (by omega),
      upd_ne _ _ _ _ (by omega)]

lemma meanLike_kurtosis {K : Type} [Field K] :
    MeanLike (incstats_kurtosis (K := K)) := by
  intro x w b
  constructor
  · simp only [incstats_kurtosis]
    rw [upd_self]
  · simp only [incstats_kurtosis]
    rw [upd_ne _ _ _ _ (by omega), upd_self, upd_ne _ _ _ _ (by omega),
      upd_ne _ _ _ _ (by omega), upd_ne _ _ _ _ (by omega)]

lemma meanLike_central_moment {K : Type} [Field K] (p : Nat) :
    MeanLike (fun x w b => incstats_central_moment (K := K) x w b p) := by
  intro x w b
  constructor
  · simp only [incstats_central_moment]
    rw [upd_self]
  · simp only [incstats_central_moment]
    rw [upd_ne _ _ _ _ (by omega), upd_self, cm_foldl_char,
      if_neg (by omega)]

lemma runUpd_cons {K : Type} [Field K] (f : K → K → (Nat → K) → Nat → K)
    (q : K × K) (l : List (K × K)) (b : Nat → K) :
    runUpd f (q :: l) b = runUpd f l (f q.1 q.2 b) := rfl

lemma wsum_cons {K : Type} [Field K] (q : K × K) (l : List (K × K)) :
    wsum (q :: l) = q.2 + wsum l := by
  simp [wsum]

lemma wxsum_cons {K : Type} [Field K] (q : K × K) (l : List (K × K)) :
    wxsum (q :: l) = q.2 * q.1 + wxsum l := by
  simp [wxsum]

lemma run_slot0 {K : Type} [Field K] {f : K → K → (Nat → K) → Nat → K}
    (hf : MeanLike f) :
    ∀ (l : List (K × K)) (b : Nat → K), runUpd f l b 0 = b 0 + wsum l := by
  intro l
  induction l with
  | nil => intro b; simp [runUpd, wsum]
  | cons q l ih =>
    intro b
    rw [runUpd_cons, ih, (hf q.1 q.2 b).1, wsum_cons]
    ring

lemma run_slot1 {K : Type} [LinearOrderedField K]
    {f : K → K → (Nat → K) → Nat → K} (hf : MeanLike f) :
    ∀ (l : List (K × K)) (b : Nat → K), (∀ q ∈ l, 0 < q.2) → 0 ≤ b 0 →
      (b 0 = 0 → b 1 = 0) →
      runUpd f l b 1 = (b 0 * b 1 + wxsum l) / (b 0 + wsum l) := by
  intro l
  induction l with
  | nil =>
    intro b _ hb0 hb1
    simp only [runUpd, List.foldl_nil, wxsum, List.map_nil, List.sum_nil,
      wsum, add_zero]
    rcases eq_or_lt_of_le hb0 with h | h
    · rw [hb1 h.symm, ← h]
      simp
    · field_simp
  | cons q l ih =>
    intro b hw hb0 _
    have hq : 0 < q.2 := hw q (by simp)
    have hs : b 0 + q.2 ≠ 0 := by positivity
    have h0 : f q.1 q.2 b 0 = b 0 + q.2 := (hf q.1 q.2 b).1
    have h1 : f q.1 q.2 b 1 = b 1 + q.2 / (b 0 + q.2) * (q.1 - b 1) :=
      (hf q.1 q.2 b).2
    rw [runUpd_cons, ih (f q.1 q.2 b) (fun r hr => hw r (by simp [hr]))
      (by rw [h0]; positivity) (by rw [h0]; intro hc; exact absurd hc hs)]
    rw [h0, h1, wsum_cons, wxsum_cons]
    have hnum : (b 0 + q.2) * (b 1 + q.2 / (b 0 + q.2) * (q.1 - b 1)) =
        b 0 * b 1 + q.2 * q.1 := by
      field_simp
      ring
    rw [hnum]
    ring_nf

/-- Slots 0 and 1 after running a mean-like update from the zero buffer. -/
lemma run_zero_slots {K : Type} [LinearOrderedField K]
    {f : K → K → (Nat → K) → Nat → K} (hf : MeanLike f)
    (l : List (K × K)) (hw : ∀ q ∈ l, 0 < q.2) :
    runUpd f l zeroBuf 0 = wsum l ∧
    runUpd f l zeroBuf 1 = wxsum l / wsum l := by
  constructor
  · rw [run_slot0 hf l zeroBuf]
    simp [zeroBuf]
  · rw [run_slot1 hf l zeroBuf hw (le_refl 0) (fun _ => rfl)]
    simp [zeroBuf]

/-- C2: for every update function of the family, after any stream of
positively weighted samples applied to the zero buffer, slot 0 holds the sum
of the weights and slot 1 holds the weighted arithmetic mean. -/
theorem claim_C2 (K : Type) [LinearOrderedField K] (p : Nat)
    (l : List (K × K)) (hw : ∀ q ∈ l, 0 < q.2) :
    (runUpd incstats_mean l zeroBuf 0 = wsum l ∧
     runUpd incstats_mean l zeroBuf 1 = wxsum l / wsum l) ∧
    (runUpd incstats_variance l zeroBuf 0 = wsum l ∧
     runUpd incstats_variance l zeroBuf 1 = wxsum l / wsum l) ∧
    (runUpd incstats_skewness l zeroBuf 0 = wsum l ∧
     runUpd incstats_skewness l zeroBuf 1 = wxsum l / wsum l) ∧
    (runUpd incstats_kurtosis l zeroBuf 0 = wsum l ∧
     runUpd incstats_kurtosis l zeroBuf 1 = wxsum l / wsum l) ∧
    (runUpd (fun x w b => incstats_central_moment x w b p) l zeroBuf 0 =
       wsum l ∧
     runUpd (fun x w b => incstats_central_moment x w b p) l zeroBuf 1 =
       wxsum l / wsum l) :=
  ⟨run_zero_slots meanLike_mean l hw,
   run_zero_slots meanLike_variance l hw,
   run_zero_slots meanLike_skewness l hw,
   run_zero_slots meanLike_kurtosis l hw,
   run_zero_slots (meanLike_central_moment p) l hw⟩

/-- Concrete stream for witnesses: samples 3 and 5, each with weight 1. -/
def wStream : List (ℚ × ℚ) := [(3, 1), (5, 1)]

/-- Witness for C2 at a concrete input. -/
theorem claim_C2_witness :
    (∀ q ∈ wStream, 0 < q.2) ∧
    ((runUpd incstats_mean wStream zeroBuf 0 = wsum wStream ∧
      runUpd incstats_mean wStream zeroBuf 1 = wxsum wStream / wsum wStream) ∧
     (runUpd incstats_variance wStream zeroBuf 0 = wsum wStream ∧
      runUpd incstats_variance wStream zeroBuf 1 =
        wxsum wStream / wsum wStream) ∧
     (runUpd incstats_skewness wStream zeroBuf 0 = wsum wStream ∧
      runUpd incstats_skewness wStream zeroBuf 1 =
        wxsum wStream / wsum wStream) ∧
     (runUpd incstats_kurtosis wStream zeroBuf 0 = wsum wStream ∧
      runUpd incstats_kurtosis wStream zeroBuf 1 =
        wxsum wStream / wsum wStream) ∧
     (runUpd (fun x w b => incstats_central_moment x w b 4) wStream
        zeroBuf 0 = wsum wStream ∧
      runUpd (fun x w b => incstats_central_moment x w b 4) wStream
        zeroBuf 1 = wxsum wStream / wsum wStream)) :=
  ⟨by simp [wStream], claim_C2 ℚ 4 wStream (by simp [wStream])⟩

/-- Weighted sum of squared values of a stream. -/
def wx2sum {K : Type} [Field K] (l : List (K × K)) : K :=
  (l.map fun q => q.2 * q.1 ^ 2).sum

/-- Naive weighted sum of squared deviations from `m`. -/
def m2sum {K : Type} [Field K] (l : List (K × K)) (m : K) : K :=
  (l.map fun q => q.2 * (q.1 - m) ^ 2).sum

/-- `incstats_mean_finalize`, translated from the C source; the result cell
is modelled as slot 0 of the results map, and the untouched accumulator is
returned alongside. -/
def incstats_mean_finalize {K : Type} [Field K] (mean b : Nat → K) :
    (Nat → K) × (Nat → K) :=
  (upd mean 0 (b 1), b)

/-- `incstats_variance_finalize`, translated from the C source. -/
def incstats_variance_finalize {K : Type} [Field K] (results b : Nat → K) :
    (Nat → K) × (Nat → K) :=
  let results := upd results 0 (b 1)
  let results := upd results 1 (b 2 / b 0)
  (results, b)

lemma runUpd_append {K : Type} [Field K] (f : K → K → (Nat → K) → Nat → K)
    (l : List (K × K)) (q : K × K) (b : Nat → K) :
    runUpd f (l ++ [q]) b = f q.1 q.2 (runUpd f l b) := by
  simp [runUpd, List.foldl_append]

lemma wsum_append {K : Type} [Field K] (l : List (K × K)) (q : K × K) :
    wsum (l ++ [q]) = wsum l + q.2 := by
  simp [wsum]

lemma wxsum_append {K : Type} [Field K] (l : List (K × K)) (q : K × K) :
    wxsum (l ++ [q]) = wxsum l + q.2 * q.1 := by
  simp [wxsum]

lemma wx2sum_append {K : Type} [Field K] (l : List (K × K)) (q : K × K) :
    wx2sum (l ++ [q]) = wx2sum l + q.2 * q.1 ^ 2 := by
  simp [wx2sum]

lemma wsum_nonneg {K : Type} [LinearOrderedField K] (l : List (K × K))
    (hw : ∀ q ∈ l, 0 < q.2) : 0 ≤ wsum l := by
  apply List.sum_nonneg
  intro y hy
  simp only [List.mem_map] at hy
  obtain ⟨q, hq, hqy⟩ := hy
  rw [← hqy]
  exact (hw q hq).le

lemma wsum_pos {K : Type} [LinearOrderedField K] (l : List (K × K))
    (hl : l ≠ []) (hw : ∀ q ∈ l, 0 < q.2) : 0 < wsum l := by
  apply List.sum_pos
  · intro y hy
    simp only [List.mem_map] at hy
    obtain ⟨q, hq, hqy⟩ := hy
    rw [← hqy]
    exact hw q hq
  · simp [hl]

/-- The order-2 slot written by a single `incstats_variance` call, in terms
of the pre-call buffer. -/
lemma variance_slot2_step {K : Type} [Field K] (x w : K) (b : Nat → K) :
    incstats_variance x w b 2 =
      b 2 + w * (x - b 1) * (x - (b 1 + w / (b 0 + w) * (x - b 1))) := by
  simp only [incstats_variance]
  rw [upd_ne _ _ _ _ (by omega), upd_self, upd_ne _ _ _ _ (by omega),
    upd_ne _ _ _ _ (by omega), upd_self]

/-- Slot 2 of a variance run from the zero buffer equals
`Σ w x² - (Σ w x)² / Σ w`. -/
lemma variance_run_slot2 {K : Type} [LinearOrderedField K] :
    ∀ (l : List (K × K)), (∀ q ∈ l, 0 < q.2) →
      runUpd incstats_variance l zeroBuf 2 =
        wx2sum l - (wxsum l) ^ 2 / wsum l := by
  intro l
  induction l using List.reverseRecOn with
  | nil => intro _; simp [runUpd, zeroBuf, wx2sum, wxsum, wsum]
  | append_singleton l q ih =>
    intro hw
    have hw' : ∀ r ∈ l, 0 < r.2 := fun r hr => hw r (by simp [hr])
    have hq : 0 < q.2 := hw q (by simp)
    have hb0 : runUpd incstats_variance l zeroBuf 0 = wsum l := by
      rw [run_slot0 meanLike_variance l zeroBuf]
      simp [zeroBuf]
    have hb1 : runUpd incstats_variance l zeroBuf 1 = wxsum l / wsum l :=
      (run_zero_slots meanLike_variance l hw').2
    rw [runUpd_append, variance_slot2_step, ih hw', hb0, hb1,
      wx2sum_append, wxsum_append, wsum_append]
    rcases eq_or_ne l [] with hl | hl
    · subst hl
      simp only [wsum, wxsum, wx2sum, List.map_nil, List.sum_nil]
      have hqne : q.2 ≠ 0 := ne_of_gt hq
      field_simp
      ring
    · have hS0 : 0 < wsum l := wsum_pos l hl hw'
      have hS0' : (0 : K) < wsum l + q.2 := by positivity
      field_simp
      ring

lemma m2sum_expand {K : Type} [Field K] :
    ∀ (l : List (K × K)) (m : K),
      m2sum l m = wx2sum l - 2 * m * wxsum l + m ^ 2 * wsum l := by
  intro l
  induction l with
  | nil => intro m; simp [m2sum, wx2sum, wxsum, wsum]
  | cons q l ih =>
    intro m
    simp only [m2sum, wx2sum, wxsum, wsum, List.map_cons, List.sum_cons]
      at ih ⊢
    rw [ih m]
    ring

/-- C6: `incstats_variance_finalize` writes `buffer[2]/buffer[0]` into
`results[1]`, and over exact arithmetic that value equals the population
weighted variance `Σ w (x - mean)² / Σ w` of the stream. -/
theorem claim_C6 (K : Type) [LinearOrderedField K] (l : List (K × K))
    (r : Nat → K) (hw : ∀ q ∈ l, 0 < q.2) :
    (incstats_variance_finalize r (runUpd incstats_variance l zeroBuf)).1 1 =
      runUpd incstats_variance l zeroBuf 2 /
        runUpd incstats_variance l zeroBuf 0 ∧
    (incstats_variance_finalize r (runUpd incstats_variance l zeroBuf)).1 1 =
      m2sum l (wxsum l / wsum l) / wsum l := by
  have hfin : (incstats_variance_finalize r
      (runUpd incstats_variance l zeroBuf)).1 1 =
      runUpd incstats_variance l zeroBuf 2 /
        runUpd incstats_variance l zeroBuf 0 := by
    simp only [incstats_variance_finalize]
    rw [upd_self]
  refine ⟨hfin, ?_⟩
  rw [hfin]
  have hb0 : runUpd incstats_variance l zeroBuf 0 = wsum l := by
    rw [run_slot0 meanLike_variance l zeroBuf]
    simp [zeroBuf]
  rw [hb0, variance_run_slot2 l hw, m2sum_expand l (wxsum l / wsum l)]
  rcases eq_or_ne l [] with hl | hl
  · subst hl
    simp [wsum, wxsum, wx2sum]
  · have hS0 : 0 < wsum l := wsum_pos l hl hw
    have hS0ne : wsum l ≠ 0 := ne_of_gt hS0
    field_simp
    ring

/-- Witness for C6 at a concrete input. -/
theorem claim_C6_witness :
    (∀ q ∈ wStream, 0 < q.2) ∧
    ((incstats_variance_finalize onesBuf
        (runUpd incstats_variance wStream zeroBuf)).1 1 =
      runUpd incstats_variance wStream zeroBuf 2 /
        runUpd incstats_variance wStream zeroBuf 0 ∧
     (incstats_variance_finalize onesBuf
        (runUpd incstats_variance wStream zeroBuf)).1 1 =
      m2sum wStream (wxsum wStream / wsum wStream) / wsum wStream) :=
  ⟨by simp [wStream], claim_C6 ℚ wStream onesBuf (by simp [wStream])⟩

/-- `incstats_skewness_finalize`, translated from the C source. -/
noncomputable def incstats_skewness_finalize (results b : Nat → ℝ) :
    (Nat → ℝ) × (Nat → ℝ) :=
  let results := upd results 0 (b 1)
  let results := upd results 1 (b 2 / b 0)
  let results := upd results 2
    ((b 3 / b 0) / ((b 2 / b 0) * Real.sqrt (b 2 / b 0)))
  (results, b)

/-- `incstats_kurtosis_finalize`, translated from the C source. -/
noncomputable def incstats_kurtosis_finalize (results b : Nat → ℝ) :
    (Nat → ℝ) × (Nat → ℝ) :=
  let results := upd results 0 (b 1)
  let results := upd results 1 (b 2 / b 0)
  let results := upd results 2
    ((b 3 / b 0) / ((b 2 / b 0) * Real.sqrt (b 2 / b 0)))
  let results := upd results 3 ((b 4 / b 0) / incstats_pow (b 2 / b 0) 2)
  (results, b)

/-- The ascending index sequence `2, ..., p` of the raw-moment loop in
`incstats_central_moment_finalize` (empty for `p ≤ 1`). -/
def ascList (p : Nat) : List Nat :=
  (List.range (p - 1)).map (fun i => i + 2)

/-- `incstats_central_moment_finalize`, translated from the C source:
`results[0] = 1`, `results[1] = 0`, the raw loop `results[i] = buffer[i] /
buffer[0]` for `i = 2..p`, the optional standardization loop dividing
`results[i]` by `sqrt(variance)^i` for `i = 0..p` (variance captured from
`results[2]` before the loop), and finally `results[p+1] = buffer[1]`. -/
noncomputable def incstats_central_moment_finalize (results b : Nat → ℝ)
    (p : Nat) (standardize : Bool) : (Nat → ℝ) × (Nat → ℝ) :=
  let results := upd results 0 1
  let results := upd results 1 0
  let results := (ascList p).foldl (fun r i => upd r i (b i / b 0)) results
  let results :=
    if standardize then
      let variance := results 2
      (List.range (p + 1)).foldl
        (fun r i => upd r i (r i / incstats_pow (Real.sqrt variance) i))
        results
    else results
  (upd results (p + 1) (b 1), b)

lemma foldl_upd_const {K : Type} (g : Nat → K) :
    ∀ (L : List Nat) (r : Nat → K) (j : Nat),
      (L.foldl (fun r i => upd r i (g i)) r) j =
        if j ∈ L then g j else r j := by
  intro L
  induction L with
  | nil => intro r j; simp
  | cons i L ih =>
    intro r j
    simp only [List.foldl_cons]
    rw [ih]
    by_cases hL : j ∈ L
    · rw [if_pos hL, if_pos (by simp [hL])]
    · rw [if_neg hL]
      by_cases hj : j = i
      · subst hj
        rw [upd_self, if_pos (by simp)]
      · rw [upd_ne _ _ _ _ hj, if_neg (by simp [hj, hL])]

lemma foldl_upd_div {K : Type} [Field K] (g : Nat → K) :
    ∀ (L : List Nat), L.Nodup → ∀ (r : Nat → K) (j : Nat),
      (L.foldl (fun r i => upd r i (r i / g i)) r) j =
        if j ∈ L then r j / g j else r j := by
  intro L
  induction L with
  | nil => intro _ r j; simp
  | cons i L ih =>
    intro hnd r j
    simp only [List.foldl_cons]
    rw [ih (List.nodup_cons.mp hnd).2]
    by_cases hL : j ∈ L
    · have hji : j ≠ i := by
        rintro rfl
        exact (List.nodup_cons.mp hnd).1 hL
      rw [if_pos hL, upd_ne _ _ _ _ hji, if_pos (by simp [hL])]
    · rw [if_neg hL]
      by_cases hj : j = i
      · subst hj
        rw [upd_self, if_pos (by simp)]
      · rw [upd_ne _ _ _ _ hj, if_neg (by simp [hj, hL])]

lemma mem_ascList (p j : Nat) : j ∈ ascList p ↔ 2 ≤ j ∧ j ≤ p := by
  simp only [ascList, List.mem_map, List.mem_range]
  constructor
  · rintro ⟨m, hm, rfl⟩
    omega
  · rintro ⟨h2, hp⟩
    exact ⟨j - 2, by omega, by omega⟩

lemma cmFin_raw_char (r b : Nat → ℝ) (p : Nat) (j : Nat) :
    ((ascList p).foldl (fun rr i => upd rr i (b i / b 0))
        (upd (upd r 0 1) 1 0)) j =
      if 2 ≤ j ∧ j ≤ p then b j / b 0
      else if j = 0 then 1 else if j = 1 then 0 else r j := by
  rw [foldl_upd_const]
  by_cases h : j ∈ ascList p
  · rw [if_pos h, if_pos ((mem_ascList p j).mp h)]
  · rw [if_neg h, if_neg (fun hc => h ((mem_ascList p j).mpr hc))]
    rcases eq_or_ne j 0 with h0 | h0
    · subst h0
      rw [upd_ne _ _ _ _ (by omega), upd_self, if_pos rfl]
    rcases eq_or_ne j 1 with h1 | h1
    · subst h1
      rw [upd_self, if_neg h0, if_pos rfl]
    · rw [upd_ne _ _ _ _ h1, upd_ne _ _ _ _ h0, if_neg h0, if_neg h1]

/-- The raw results value at index `j ≤ p`, before standardization. -/
noncomputable def cmFin_core (r b : Nat → ℝ) (p j : Nat) : ℝ :=
  if j = 0 then 1 else if j = 1 then 0 else if j ≤ p then b j / b 0 else r j

/-- The variance value captured by the standardization branch:
`results[2]` as it stands after the raw loop. -/
noncomputable def cmFin_variance (r b : Nat → ℝ) (p : Nat) : ℝ :=
  if 2 ≤ p then b 2 / b 0 else r 2

lemma cmFin_char_le (r b : Nat → ℝ) (p : Nat) (std : Bool) (j : Nat)
    (hj : j ≤ p) :
    (incstats_central_moment_finalize r b p std).1 j =
      (if std then cmFin_core r b p j /
          incstats_pow (Real.sqrt (cmFin_variance r b p)) j
       else cmFin_core r b p j) := by
  have hcore : ∀ m, m ≤ p →
      ((ascList p).foldl (fun rr i => upd rr i (b i / b 0))
        (upd (upd r 0 1) 1 0)) m = cmFin_core r b p m := by
    intro m hm
    rw [cmFin_raw_char]
    unfold cmFin_core
    rcases eq_or_ne m 0 with h0 | h0
    · subst h0
      rw [if_neg (by omega), if_pos rfl, if_pos rfl]
    rcases eq_or_ne m 1 with h1 | h1
    · subst h1
      rw [if_neg (by omega), if_neg h0, if_pos rfl, if_neg h0, if_pos rfl]
    · rw [if_pos (by omega), if_neg h0, if_neg h1, if_pos hm]
  have hvar : ((ascList p).foldl (fun rr i => upd rr i (b i / b 0))
      (upd (upd r 0 1) 1 0)) 2 = cmFin_variance r b p := by
    rw [cmFin_raw_char]
    unfold cmFin_variance
    by_cases h2 : 2 ≤ p
    · rw [if_pos (by omega), if_pos h2]
    · rw [if_neg (by omega), if_neg (by omega), if_neg (by omega),
        if_neg h2]
  simp only [incstats_central_moment_finalize]
  rw [upd_ne _ _ _ _ (by omega)]
  cases std with
  | false =>
    rw [if_neg (by simp), if_neg (Bool.false_ne_true)]
    exact hcore j hj
  | true =>
    rw [if_pos rfl, if_pos rfl]
    rw [foldl_upd_div _ _ (List.nodup_range (p + 1)),
      if_pos (by simp; omega), hcore j hj, hvar]

lemma cmFin_at_mean (r b : Nat → ℝ) (p : Nat) (std : Bool) :
    (incstats_central_moment_finalize r b p std).1 (p + 1) = b 1 := by
  simp only [incstats_central_moment_finalize]
  rw [upd_self]

lemma cmFin_beyond (r b : Nat → ℝ) (p : Nat) (std : Bool) (j : Nat)
    (hj : p + 1 < j) :
    (incstats_central_moment_finalize r b p std).1 j = r j := by
  simp only [incstats_central_moment_finalize]
  rw [upd_ne _ _ _ _ (by omega)]
  cases std with
  | false =>
    rw [if_neg (Bool.false_ne_true), cmFin_raw_char, if_neg (by omega),
      if_neg (by omega), if_neg (by omega)]
  | true =>
    rw [if_pos rfl,
      foldl_upd_div _ _ (List.nodup_range (p + 1)), if_neg (by simp; omega),
      cmFin_raw_char, if_neg (by omega), if_neg (by omega),
      if_neg (by omega)]

/-- Helper buffer over ℝ for witnesses: every slot holds 1. -/
noncomputable def onesBufR : Nat → ℝ := fun _ => 1

/-- C5: for `p ≥ 2` and positive cumulative weight,
`incstats_central_moment_finalize` writes `results[0] = 1`,
`results[1] = 0`, `results[i] = buffer[i]/buffer[0]` for `2 ≤ i ≤ p`
(additionally divided by `sqrt(variance)^i` when standardizing, where the
variance is the pre-division `results[2] = buffer[2]/buffer[0]`),
`results[p+1] = buffer[1]` (raw mean), and no other index. -/
theorem claim_C5 (p i j : Nat) (std : Bool) (r b : Nat → ℝ)
    (hp : 2 ≤ p) (hb : 0 < b 0) (hi2 : 2 ≤ i) (hip : i ≤ p)
    (hj : p + 1 < j) :
    (incstats_central_moment_finalize r b p std).1 0 = 1 ∧
    (incstats_central_moment_finalize r b p std).1 1 = 0 ∧
    ((incstats_central_moment_finalize r b p std).1 i =
      if std then (b i / b 0) / Real.sqrt (b 2 / b 0) ^ i
      else b i / b 0) ∧
    (incstats_central_moment_finalize r b p std).1 (p + 1) = b 1 ∧
    (incstats_central_moment_finalize r b p std).1 j = r j := by
  have hcore0 : cmFin_core r b p 0 = 1 := by
    unfold cmFin_core
    rw [if_pos rfl]
  have hcore1 : cmFin_core r b p 1 = 0 := by
    unfold cmFin_core
    rw [if_neg (by omega), if_pos rfl]
  have hcorei : cmFin_core r b p i = b i / b 0 := by
    unfold cmFin_core
    rw [if_neg (by omega), if_neg (by omega), if_pos hip]
  have hvar : cmFin_variance r b p = b 2 / b 0 := by
    unfold cmFin_variance
    rw [if_pos hp]
  refine ⟨?_, ?_, ?_, cmFin_at_mean r b p std, cmFin_beyond r b p std j hj⟩
  · rw [cmFin_char_le r b p std 0 (by omega), hcore0]
    cases std with
    | false => rw [if_neg Bool.false_ne_true]
    | true => rw [if_pos rfl, incstats_pow_eq, pow_zero, div_one]
  · rw [cmFin_char_le r b p std 1 (by omega), hcore1]
    cases std with
    | false => rw [if_neg Bool.false_ne_true]
    | true => rw [if_pos rfl, zero_div]
  · rw [cmFin_char_le r b p std i (by omega), hcorei, hvar]
    cases std with
    | false => rw [if_neg Bool.false_ne_true, if_neg Bool.false_ne_true]
    | true => rw [if_pos rfl, if_pos rfl, incstats_pow_eq]

/-- Witness for C5 at a concrete input. -/
theorem claim_C5_witness :
    (2 ≤ 2 ∧ (0 : ℝ) < onesBufR 0 ∧ 2 ≤ 2 ∧ 2 ≤ 2 ∧ 2 + 1 < 4) ∧
    ((incstats_central_moment_finalize onesBufR onesBufR 2 true).1 0 = 1 ∧
     (incstats_central_moment_finalize onesBufR onesBufR 2 true).1 1 = 0 ∧
     ((incstats_central_moment_finalize onesBufR onesBufR 2 true).1 2 =
       if true then (onesBufR 2 / onesBufR 0) /
         Real.sqrt (onesBufR 2 / onesBufR 0) ^ 2
       else onesBufR 2 / onesBufR 0) ∧
     (incstats_central_moment_finalize onesBufR onesBufR 2 true).1 (2 + 1) =
       onesBufR 1 ∧
     (incstats_central_moment_finalize onesBufR onesBufR 2 true).1 4 =
       onesBufR 4) :=
  ⟨⟨by decide, zero_lt_one, by decide, by decide, by decide⟩,
   claim_C5 2 2 4 true onesBufR onesBufR (by decide) zero_lt_one
     (by decide) (by decide) (by decide)⟩

lemma cmFin_core_indep (r r' b : Nat → ℝ) (p j : Nat) (hj : j ≤ p) :
    cmFin_core r b p j = cmFin_core r' b p j := by
  unfold cmFin_core
  rcases eq_or_ne j 0 with h0 | h0
  · subst h0
    rw [if_pos rfl, if_pos rfl]
  rcases eq_or_ne j 1 with h1 | h1
  · subst h1
    rw [if_neg h0, if_pos rfl, if_neg h0, if_pos rfl]
  · rw [if_neg h0, if_neg h1, if_pos hj, if_neg h0, if_neg h1, if_pos hj]

/-- Applying `incstats_central_moment_finalize` to its own results leaves the
results unchanged: every written slot is recomputed to the same value from
the untouched buffer. -/
lemma cmFin_idem (r b : Nat → ℝ) (p : Nat) (std : Bool) :
    (incstats_central_moment_finalize
      (incstats_central_moment_finalize r b p std).1 b p std).1 =
    (incstats_central_moment_finalize r b p std).1 := by
  funext j
  rcases Nat.lt_or_ge (p + 1) j with hj | hj
  · rw [cmFin_beyond _ b p std j hj]
  rcases eq_or_ne j (p + 1) with hjp | hjp
  · subst hjp
    rw [cmFin_at_mean, cmFin_at_mean]
  have hjle : j ≤ p := by omega
  rw [cmFin_char_le _ b p std j hjle, cmFin_char_le r b p std j hjle]
  by_cases hp2 : 2 ≤ p
  · have hv : ∀ r' : Nat → ℝ, cmFin_variance r' b p = b 2 / b 0 := by
      intro r'
      unfold cmFin_variance
      rw [if_pos hp2]
    rw [hv, hv, cmFin_core_indep _ r b p j hjle]
  · have hj01 : j = 0 ∨ j = 1 := by omega
    have hcore : ∀ r' : Nat → ℝ, cmFin_core r' b p j = cmFin_core r b p j :=
      fun r' => cmFin_core_indep r' r b p j hjle
    rcases hj01 with h0 | h1
    · subst h0
      have hc : ∀ r' : Nat → ℝ, cmFin_core r' b p 0 = 1 := by
        intro r'
        unfold cmFin_core
        rw [if_pos rfl]
      cases std with
      | false => rw [if_neg Bool.false_ne_true, if_neg Bool.false_ne_true,
          hc, hc]
      | true => rw [if_pos rfl, if_pos rfl, hc, hc, incstats_pow_eq,
          incstats_pow_eq, pow_zero, pow_zero, div_one]
    · subst h1
      have hc : ∀ r' : Nat → ℝ, cmFin_core r' b p 1 = 0 := by
        intro r'
        unfold cmFin_core
        rw [if_neg (by omega), if_pos rfl]
      cases std with
      | false => rw [if_neg Bool.false_ne_true, if_neg Bool.false_ne_true,
          hc, hc]
      | true => rw [if_pos rfl, if_pos rfl, hc, hc, zero_div, zero_div]

/-- C8: every finalize leaves the accumulator unchanged, finalizing twice in
a row yields identical results, and an interposed finalize does not change
the outcome of subsequent updates. -/
theorem claim_C8 (x w : ℝ) (r b : Nat → ℝ) (p : Nat) (std : Bool) :
    ((incstats_mean_finalize r b).2 = b ∧
     (incstats_variance_finalize r b).2 = b ∧
     (incstats_skewness_finalize r b).2 = b ∧
     (incstats_kurtosis_finalize r b).2 = b ∧
     (incstats_central_moment_finalize r b p std).2 = b) ∧
    ((incstats_mean_finalize (incstats_mean_finalize r b).1
        (incstats_mean_finalize r b).2).1 =
      (incstats_mean_finalize r b).1 ∧
     (incstats_variance_finalize (incstats_variance_finalize r b).1
        (incstats_variance_finalize r b).2).1 =
      (incstats_variance_finalize r b).1 ∧
     (incstats_skewness_finalize (incstats_skewness_finalize r b).1
        (incstats_skewness_finalize r b).2).1 =
      (incstats_skewness_finalize r b).1 ∧
     (incstats_kurtosis_finalize (incstats_kurtosis_finalize r b).1
        (incstats_kurtosis_finalize r b).2).1 =
      (incstats_kurtosis_finalize r b).1 ∧
     (incstats_central_moment_finalize
        (incstats_central_moment_finalize r b p std).1
        (incstats_central_moment_finalize r b p std).2 p std).1 =
      (incstats_central_moment_finalize r b p std).1) ∧
    (incstats_mean x w (incstats_mean_finalize r b).2 =
       incstats_mean x w b ∧
     incstats_variance x w (incstats_variance_finalize r b).2 =
       incstats_variance x w b ∧
     incstats_skewness x w (incstats_skewness_finalize r b).2 =
       incstats_skewness x w b ∧
     incstats_kurtosis x w (incstats_kurtosis_finalize r b).2 =
       incstats_kurtosis x w b ∧
     incstats_central_moment x w
         (incstats_central_moment_finalize r b p std).2 p =
       incstats_central_moment x w b p) := by
  refine ⟨⟨rfl, rfl, rfl, rfl, rfl⟩, ⟨?_, ?_, ?_, ?_, cmFin_idem r b p std⟩,
    rfl, rfl, rfl, rfl, rfl⟩
  · funext j
    simp only [incstats_mean_finalize]
    rcases eq_or_ne j 0 with h0 | h0
    · subst h0
      rw [upd_self, upd_self]
    · rw [upd_ne _ _ _ _ h0, upd_ne _ _ _ _ h0]
  · funext j
    simp only [incstats_variance_finalize]
    rcases eq_or_ne j 1 with h1 | h1
    · subst h1
      rw [upd_self, upd_self]
    rw [upd_ne _ _ _ _ h1, upd_ne _ _ _ _ h1]
    rcases eq_or_ne j 0 with h0 | h0
    · subst h0
      rw [upd_self, upd_self]
    · rw [upd_ne _ _ _ _ h0, upd_ne _ _ _ _ h0, upd_ne _ _ _ _ h1,
        upd_ne _ _ _ _ h0]
  · funext j
    simp only [incstats_skewness_finalize]
    rcases eq_or_ne j 2 with h2 | h2
    · subst h2
      rw [upd_self, upd_self]
    rw [upd_ne _ _ _ _ h2, upd_ne _ _ _ _ h2]
    rcases eq_or_ne j 1 with h1 | h1
    · subst h1
      rw [upd_self, upd_self]
    rw [upd_ne _ _ _ _ h1, upd_ne _ _ _ _ h1]
    rcases eq_or_ne j 0 with h0 | h0
    · subst h0
      rw [upd_self, upd_self]
    · rw [upd_ne _ _ _ _ h0, upd_ne _ _ _ _ h0, upd_ne _ _ _ _ h2,
        upd_ne _ _ _ _ h1, upd_ne _ _ _ _ h0]
  · funext j
    simp only [incstats_kurtosis_finalize]
    rcases eq_or_ne j 3 with h3 | h3
    · subst h3
      rw [upd_self, upd_self]
    rw [upd_ne _ _ _ _ h3, upd_ne _ _ _ _ h3]
    rcases eq_or_ne j 2 with h2 | h2
    · subst h2
      rw [upd_self, upd_self]
    rw [upd_ne _ _ _ _ h2, upd_ne _ _ _ _ h2]
    rcases eq_or_ne j 1 with h1 | h1
    · subst h1
      rw [upd_self, upd_self]
    rw [upd_ne _ _ _ _ h1, upd_ne _ _ _ _ h1]
    rcases eq_or_ne j 0 with h0 | h0
    · subst h0
      rw [upd_self, upd_self]
    · rw [upd_ne _ _ _ _ h0, upd_ne _ _ _ _ h0, upd_ne _ _ _ _ h3,
        upd_ne _ _ _ _ h2, upd_ne _ _ _ _ h1, upd_ne _ _ _ _ h0]

lemma cm_slot_mid {K : Type} [Field K] (x w : K) (b : Nat → K) (p j : Nat)
    (h2 : 2 ≤ j) (hp : j ≤ p) :
    incstats_central_moment x w b p j = cm_val x w (b 0 + w) b j := by
  simp only [incstats_central_moment]
  rw [upd_ne _ _ _ _ (by omega), upd_ne _ _ _ _ (by omega), cm_foldl_char,
    if_pos ⟨h2, hp⟩]

lemma cm_slot_high {K : Type} [Field K] (x w : K) (b : Nat → K) (p j : Nat)
    (h2 : 2 ≤ j) (hp : p < j) :
    incstats_central_moment x w b p j = b j := by
  simp only [incstats_central_moment]
  rw [upd_ne _ _ _ _ (by omega), upd_ne _ _ _ _ (by omega), cm_foldl_char,
    if_neg (by omega)]

lemma cm_tmp_two {K : Type} [Field K] (x w s : K) (b : Nat → K) :
    cm_tmp x w s b 2 = 0 := rfl

lemma cm_tmp_three {K : Type} [Field K] (x w s : K) (b : Nat → K) :
    cm_tmp x w s b 3 = 3 * (b 2) * (-w * (x - b 1) / s) := by
  unfold cm_tmp
  have hL : ((List.range (3 - 2)).map (fun k => k + 1)).reverse = [1] := rfl
  rw [hL]
  simp only [List.foldl_cons, List.foldl_nil]
  rw [n_choose_k_3_1, incstats_pow_eq, pow_one, zero_add]
  norm_num

lemma cm_tmp_four {K : Type} [Field K] (x w s : K) (b : Nat → K) :
    cm_tmp x w s b 4 =
      6 * (b 2) * (-w * (x - b 1) / s) ^ 2
      + 4 * (b 3) * (-w * (x - b 1) / s) := by
  unfold cm_tmp
  have hL : ((List.range (4 - 2)).map (fun k => k + 1)).reverse = [2, 1] :=
    rfl
  rw [hL]
  simp only [List.foldl_cons, List.foldl_nil]
  rw [n_choose_k_4_1, n_choose_k_4_2, incstats_pow_eq, incstats_pow_eq,
    pow_one, zero_add]
  norm_num

lemma skewness_slot2_step {K : Type} [Field K] (x w : K) (b : Nat → K) :
    incstats_skewness x w b 2 =
      b 2 + b 0 * incstats_pow (-w * (x - b 1) / (b 0 + w)) 2
      + w * incstats_pow (b 0 * (x - b 1) / (b 0 + w)) 2 := by
  simp only [incstats_skewness]
  rw [upd_ne _ _ _ _ (by omega), upd_ne _ _ _ _ (by omega), upd_self,
    upd_ne _ _ _ _ (by omega), upd_ne _ _ _ _ (by omega),
    upd_ne _ _ _ _ (by omega)]

lemma skewness_slot3_step {K : Type} [Field K] (x w : K) (b : Nat → K) :
    incstats_skewness x w b 3 =
      b 3 + 3 * (b 2) * (-w * (x - b 1) / (b 0 + w))
      + b 0 * incstats_pow (-w * (x - b 1) / (b 0 + w)) 3
      + w * incstats_pow (b 0 * (x - b 1) / (b 0 + w)) 3 := by
  simp only [incstats_skewness]
  rw [upd_ne _ _ _ _ (by omega), upd_ne _ _ _ _ (by omega),
    upd_ne _ _ _ _ (by omega), upd_self]

lemma skewness_slot_high {K : Type} [Field K] (x w : K) (b : Nat → K)
    (j : Nat) :
    incstats_skewness x w b (j + 4) = b (j + 4) := by
  simp only [incstats_skewness]
  rw [upd_ne _ _ _ _ (by omega), upd_ne _ _ _ _ (by omega),
    upd_ne _ _ _ _ (by omega), upd_ne _ _ _ _ (by omega)]

lemma kurtosis_slot2_step {K : Type} [Field K] (x w : K) (b : Nat → K) :
    incstats_kurtosis x w b 2 =
      b 2 + b 0 * incstats_pow (-w * (x - b 1) / (b 0 + w)) 2
      + w * incstats_pow (b 0 * (x - b 1) / (b 0 + w)) 2 := by
  simp only [incstats_kurtosis]
  rw [upd_ne _ _ _ _ (by omega), upd_ne _ _ _ _ (by omega), upd_self,
    upd_ne _ _ _ _ (by omega), upd_ne _ _ _ _ (by omega),
    upd_ne _ _ _ _ (by omega), upd_ne _ _ _ _ (by omega),
    upd_ne _ _ _ _ (by omega), upd_ne _ _ _ _ (by omega)]

lemma kurtosis_slot3_step {K : Type} [Field K] (x w : K) (b : Nat → K) :
    incstats_kurtosis x w b 3 =
      b 3 + 3 * (b 2) * (-w * (x - b 1) / (b 0 + w))
      + b 0 * incstats_pow (-w * (x - b 1) / (b 0 + w)) 3
      + w * incstats_pow (b 0 * (x - b 1) / (b 0 + w)) 3 := by
  simp only [incstats_kurtosis]
  rw [upd_ne _ _ _ _ (by omega), upd_ne _ _ _ _ (by omega),
    upd_ne _ _ _ _ (by omega), upd_self, upd_ne _ _ _ _ (by omega),
    upd_ne _ _ _ _ (by omega), upd_ne _ _ _ _ (by omega),
    upd_ne _ _ _ _ (by omega)]

lemma kurtosis_slot4_step {K : Type} [Field K] (x w : K) (b : Nat → K) :
    incstats_kurtosis x w b 4 =
      b 4 + 4 * (b 3) * (-w * (x - b 1) / (b 0 + w))
      + 6 * (b 2) * incstats_pow (-w * (x - b 1) / (b 0 + w)) 2
      + b 0 * incstats_pow (-w * (x - b 1) / (b 0 + w)) 4
      + w * incstats_pow (b 0 * (x - b 1) / (b 0 + w)) 4 := by
  simp only [incstats_kurtosis]
  rw [upd_ne _ _ _ _ (by omega), upd_ne _ _ _ _ (by omega),
    upd_ne _ _ _ _ (by omega), upd_ne _ _ _ _ (by omega), upd_self]

lemma kurtosis_slot_high {K : Type} [Field K] (x w : K) (b : Nat → K)
    (j : Nat) :
    incstats_kurtosis x w b (j + 5) = b (j + 5) := by
  simp only [incstats_kurtosis]
  rw [upd_ne _ _ _ _ (by omega), upd_ne _ _ _ _ (by omega),
    upd_ne _ _ _ _ (by omega), upd_ne _ _ _ _ (by omega),
    upd_ne _ _ _ _ (by omega)]

lemma variance_slot_high {K : Type} [Field K] (x w : K) (b : Nat → K)
    (j : Nat) :
    incstats_variance x w b (j + 3) = b (j + 3) := by
  simp only [incstats_variance]
  rw [upd_ne _ _ _ _ (by omega), upd_ne _ _ _ _ (by omega),
    upd_ne _ _ _ _ (by omega)]

lemma cm_slot0 {K : Type} [Field K] (x w : K) (b : Nat → K) (p : Nat) :
    incstats_central_moment x w b p 0 = b 0 + w :=
  (meanLike_central_moment p x w b).1

lemma cm_slot1 {K : Type} [Field K] (x w : K) (b : Nat → K) (p : Nat) :
    incstats_central_moment x w b p 1 =
      b 1 + w / (b 0 + w) * (x - b 1) :=
  (meanLike_central_moment p x w b).2

/-- A single order-3 generalized update coincides with a single
`incstats_skewness` update, on every buffer. -/
lemma cm3_eq_skewness {K : Type} [Field K] (x w : K) (b : Nat → K) :
    incstats_central_moment x w b 3 = incstats_skewness x w b := by
  funext j
  match j with
  | 0 =>
    rw [cm_slot0, (meanLike_skewness x w b).1]
  | 1 =>
    rw [cm_slot1, (meanLike_skewness x w b).2]
  | 2 =>
    rw [cm_slot_mid x w b 3 2 (by omega) (by omega), skewness_slot2_step]
    unfold cm_val
    rw [cm_tmp_two, add_zero]
  | 3 =>
    rw [cm_slot_mid x w b 3 3 (by omega) (by omega), skewness_slot3_step]
    unfold cm_val
    rw [cm_tmp_three]
  | (j + 4) =>
    rw [cm_slot_high x w b 3 (j + 4) (by omega) (by omega),
      skewness_slot_high]

/-- A single order-4 generalized update coincides with a single
`incstats_kurtosis` update, on every buffer. -/
lemma cm4_eq_kurtosis {K : Type} [Field K] (x w : K) (b : Nat → K) :
    incstats_central_moment x w b 4 = incstats_kurtosis x w b := by
  funext j
  match j with
  | 0 =>
    rw [cm_slot0, (meanLike_kurtosis x w b).1]
  | 1 =>
    rw [cm_slot1, (meanLike_kurtosis x w b).2]
  | 2 =>
    rw [cm_slot_mid x w b 4 2 (by omega) (by omega), kurtosis_slot2_step]
    unfold cm_val
    rw [cm_tmp_two, add_zero]
  | 3 =>
    rw [cm_slot_mid x w b 4 3 (by omega) (by omega), kurtosis_slot3_step]
    unfold cm_val
    rw [cm_tmp_three]
  | 4 =>
    rw [cm_slot_mid x w b 4 4 (by omega) (by omega), kurtosis_slot4_step]
    unfold cm_val
    rw [cm_tmp_four, incstats_pow_eq, incstats_pow_eq, incstats_pow_eq]
    ring
  | (j + 5) =>
    rw [cm_slot_high x w b 4 (j + 5) (by omega) (by omega),
      kurtosis_slot_high]

/-- A single order-2 generalized update coincides with a single
`incstats_variance` update, on every buffer with nonnegative cumulative
weight, for nonnegative sample weight. -/
lemma cm2_eq_variance {K : Type} [LinearOrderedField K] (x w : K)
    (b : Nat → K) (hb : 0 ≤ b 0) (hw : 0 ≤ w) :
    incstats_central_moment x w b 2 = incstats_variance x w b := by
  funext j
  match j with
  | 0 =>
    rw [cm_slot0, (meanLike_variance x w b).1]
  | 1 =>
    rw [cm_slot1, (meanLike_variance x w b).2]
  | 2 =>
    rw [cm_slot_mid x w b 2 2 (by omega) (by omega), variance_slot2_step]
    unfold cm_val
    rw [cm_tmp_two, add_zero, incstats_pow_eq, incstats_pow_eq]
    rcases eq_or_ne (b 0 + w) 0 with hs | hs
    · have hb0 : b 0 = 0 := by linarith
      have hw0 : w = 0 := by linarith
      rw [hb0, hw0]
      ring
    · field_simp
      ring
  | (j + 3) =>
    rw [cm_slot_high x w b 2 (j + 3) (by omega) (by omega),
      variance_slot_high]

lemma runUpd_congr {K : Type} [Field K]
    {f g : K → K → (Nat → K) → Nat → K}
    (h : ∀ (x w : K) (b : Nat → K), f x w b = g x w b) :
    ∀ (l : List (K × K)) (b : Nat → K), runUpd f l b = runUpd g l b := by
  intro l
  induction l with
  | nil => intro b; rfl
  | cons q l ih =>
    intro b
    rw [runUpd_cons, runUpd_cons, h q.1 q.2 b, ih]

lemma run_cm2_eq_variance {K : Type} [LinearOrderedField K] :
    ∀ (l : List (K × K)) (b : Nat → K), (∀ q ∈ l, 0 ≤ q.2) → 0 ≤ b 0 →
      runUpd (fun x w b => incstats_central_moment x w b 2) l b =
        runUpd incstats_variance l b := by
  intro l
  induction l with
  | nil => intro b _ _; rfl
  | cons q l ih =>
    intro b hw hb
    have hq : 0 ≤ q.2 := hw q (by simp)
    have hstep : incstats_central_moment q.1 q.2 b 2 =
        incstats_variance q.1 q.2 b := cm2_eq_variance q.1 q.2 b hb hq
    have hb' : 0 ≤ incstats_variance q.1 q.2 b 0 := by
      rw [(meanLike_variance q.1 q.2 b).1]
      exact add_nonneg hb hq
    calc runUpd (fun x w b => incstats_central_moment x w b 2) (q :: l) b
        = runUpd (fun x w b => incstats_central_moment x w b 2) l
            (incstats_central_moment q.1 q.2 b 2) := rfl
      _ = runUpd (fun x w b => incstats_central_moment x w b 2) l
            (incstats_variance q.1 q.2 b) := by rw [hstep]
      _ = runUpd incstats_variance l (incstats_variance q.1 q.2 b) :=
            ih _ (fun r hr => hw r (by simp [hr])) hb'

lemma kurtosis_run_nonneg {K : Type} [LinearOrderedField K] :
    ∀ (l : List (K × K)) (b : Nat → K), (∀ q ∈ l, 0 ≤ q.2) →
      0 ≤ b 0 → 0 ≤ b 2 →
      0 ≤ runUpd incstats_kurtosis l b 0 ∧
      0 ≤ runUpd incstats_kurtosis l b 2 := by
  intro l
  induction l with
  | nil => intro b _ hb0 hb2; exact ⟨hb0, hb2⟩
  | cons q l ih =>
    intro b hw hb0 hb2
    have hq : 0 ≤ q.2 := hw q (by simp)
    rw [runUpd_cons]
    apply ih _ (fun r hr => hw r (by simp [hr]))
    · rw [(meanLike_kurtosis q.1 q.2 b).1]
      exact add_nonneg hb0 hq
    · rw [kurtosis_slot2_step, incstats_pow_eq, incstats_pow_eq]
      have h1 : 0 ≤ b 0 * (-q.2 * (q.1 - b 1) / (b 0 + q.2)) ^ 2 :=
        mul_nonneg hb0 (sq_nonneg _)
      have h2 : 0 ≤ q.2 * (b 0 * (q.1 - b 1) / (b 0 + q.2)) ^ 2 :=
        mul_nonneg hq (sq_nonneg _)
      linarith

lemma sqrt_cube (v : ℝ) : Real.sqrt v ^ 3 = v * Real.sqrt v := by
  rcases le_or_lt 0 v with h | h
  · have h3 : Real.sqrt v ^ 3 = Real.sqrt v ^ 2 * Real.sqrt v := by ring
    rw [h3, Real.sq_sqrt h]
  · rw [Real.sqrt_eq_zero_of_nonpos h.le]
    ring

lemma sqrt_fourth (v : ℝ) (hv : 0 ≤ v) : Real.sqrt v ^ 4 = v ^ 2 := by
  have h4 : Real.sqrt v ^ 4 = (Real.sqrt v ^ 2) ^ 2 := by ring
  rw [h4, Real.sq_sqrt hv]

lemma cmFin_raw_mid (r b : Nat → ℝ) (p i : Nat) (h2 : 2 ≤ i)
    (hip : i ≤ p) :
    (incstats_central_moment_finalize r b p false).1 i = b i / b 0 := by
  rw [cmFin_char_le r b p false i hip, if_neg Bool.false_ne_true]
  unfold cmFin_core
  rw [if_neg (by omega), if_neg (by omega), if_pos hip]

lemma cmFin_std_mid (r b : Nat → ℝ) (p i : Nat) (h2 : 2 ≤ i) (hip : i ≤ p)
    (hp : 2 ≤ p) :
    (incstats_central_moment_finalize r b p true).1 i =
      (b i / b 0) / Real.sqrt (b 2 / b 0) ^ i := by
  rw [cmFin_char_le r b p true i hip, if_pos rfl]
  unfold cmFin_core cmFin_variance
  rw [if_neg (by omega), if_neg (by omega), if_pos hip, if_pos hp,
    incstats_pow_eq]

lemma varFin_slot0 (r b : Nat → ℝ) :
    (incstats_variance_finalize r b).1 0 = b 1 := by
  simp only [incstats_variance_finalize]
  rw [upd_ne _ _ _ _ (by omega), upd_self]

lemma varFin_slot1 (r b : Nat → ℝ) :
    (incstats_variance_finalize r b).1 1 = b 2 / b 0 := by
  simp only [incstats_variance_finalize]
  rw [upd_self]

lemma skewFin_slot0 (r b : Nat → ℝ) :
    (incstats_skewness_finalize r b).1 0 = b 1 := by
  simp only [incstats_skewness_finalize]
  rw [upd_ne _ _ _ _ (by omega), upd_ne _ _ _ _ (by omega), upd_self]

lemma skewFin_slot1 (r b : Nat → ℝ) :
    (incstats_skewness_finalize r b).1 1 = b 2 / b 0 := by
  simp only [incstats_skewness_finalize]
  rw [upd_ne _ _ _ _ (by omega), upd_self]

lemma skewFin_slot2 (r b : Nat → ℝ) :
    (incstats_skewness_finalize r b).1 2 =
      (b 3 / b 0) / ((b 2 / b 0) * Real.sqrt (b 2 / b 0)) := by
  simp only [incstats_skewness_finalize]
  rw [upd_self]

lemma kurtFin_slot0 (r b : Nat → ℝ) :
    (incstats_kurtosis_finalize r b).1 0 = b 1 := by
  simp only [incstats_kurtosis_finalize]
  rw [upd_ne _ _ _ _ (by omega), upd_ne _ _ _ _ (by omega),
    upd_ne _ _ _ _ (by omega), upd_self]

lemma kurtFin_slot1 (r b : Nat → ℝ) :
    (incstats_kurtosis_finalize r b).1 1 = b 2 / b 0 := by
  simp only [incstats_kurtosis_finalize]
  rw [upd_ne _ _ _ _ (by omega), upd_ne _ _ _ _ (by omega), upd_self]

lemma kurtFin_slot2 (r b : Nat → ℝ) :
    (incstats_kurtosis_finalize r b).1 2 =
      (b 3 / b 0) / ((b 2 / b 0) * Real.sqrt (b 2 / b 0)) := by
  simp only [incstats_kurtosis_finalize]
  rw [upd_ne _ _ _ _ (by omega), upd_self]

lemma kurtFin_slot3 (r b : Nat → ℝ) :
    (incstats_kurtosis_finalize r b).1 3 =
      (b 4 / b 0) / (b 2 / b 0) ^ 2 := by
  simp only [incstats_kurtosis_finalize, incstats_pow_eq]
  rw [upd_self]

/-- C1: for `p = 2, 3, 4`, running the generalized update from the zero
buffer produces the same buffer contents as the specialized variance /
skewness / kurtosis updates on the same (nonnegatively weighted) stream —
quantifying over all streams covers the state after every sample — and the
raw and standardized outputs of `incstats_central_moment_finalize`
agree with the corresponding specialized finalize outputs. -/
theorem claim_C1 (l : List (ℝ × ℝ)) (r : Nat → ℝ) (std : Bool)
    (hw : ∀ q ∈ l, 0 ≤ q.2) :
    runUpd (fun x w b => incstats_central_moment x w b 2) l zeroBuf =
      runUpd incstats_variance l zeroBuf ∧
    runUpd (fun x w b => incstats_central_moment x w b 3) l zeroBuf =
      runUpd incstats_skewness l zeroBuf ∧
    runUpd (fun x w b => incstats_central_moment x w b 4) l zeroBuf =
      runUpd incstats_kurtosis l zeroBuf ∧
    (incstats_central_moment_finalize r
        (runUpd (fun x w b => incstats_central_moment x w b 2) l zeroBuf)
        2 false).1 2 =
      (incstats_variance_finalize r
        (runUpd incstats_variance l zeroBuf)).1 1 ∧
    (incstats_central_moment_finalize r
        (runUpd (fun x w b => incstats_central_moment x w b 2) l zeroBuf)
        2 std).1 3 =
      (incstats_variance_finalize r
        (runUpd incstats_variance l zeroBuf)).1 0 ∧
    (incstats_central_moment_finalize r
        (runUpd (fun x w b => incstats_central_moment x w b 3) l zeroBuf)
        3 false).1 2 =
      (incstats_skewness_finalize r
        (runUpd incstats_skewness l zeroBuf)).1 1 ∧
    (incstats_central_moment_finalize r
        (runUpd (fun x w b => incstats_central_moment x w b 3) l zeroBuf)
        3 true).1 3 =
      (incstats_skewness_finalize r
        (runUpd incstats_skewness l zeroBuf)).1 2 ∧
    (incstats_central_moment_finalize r
        (runUpd (fun x w b => incstats_central_moment x w b 3) l zeroBuf)
        3 std).1 4 =
      (incstats_skewness_finalize r
        (runUpd incstats_skewness l zeroBuf)).1 0 ∧
    (incstats_central_moment_finalize r
        (runUpd (fun x w b => incstats_central_moment x w b 4) l zeroBuf)
        4 false).1 2 =
      (incstats_kurtosis_finalize r
        (runUpd incstats_kurtosis l zeroBuf)).1 1 ∧
    (incstats_central_moment_finalize r
        (runUpd (fun x w b => incstats_central_moment x w b 4) l zeroBuf)
        4 true).1 3 =
      (incstats_kurtosis_finalize r
        (runUpd incstats_kurtosis l zeroBuf)).1 2 ∧
    (incstats_central_moment_finalize r
        (runUpd (fun x w b => incstats_central_moment x w b 4) l zeroBuf)
        4 true).1 4 =
      (incstats_kurtosis_finalize r
        (runUpd incstats_kurtosis l zeroBuf)).1 3 ∧
    (incstats_central_moment_finalize r
        (runUpd (fun x w b => incstats_central_moment x w b 4) l zeroBuf)
        4 std).1 5 =
      (incstats_kurtosis_finalize r
        (runUpd incstats_kurtosis l zeroBuf)).1 0 := by
  have e2 : runUpd (fun x w b => incstats_central_moment x w b 2) l
      zeroBuf = runUpd incstats_variance l zeroBuf :=
    run_cm2_eq_variance l zeroBuf hw (le_refl 0)
  have e3 : runUpd (fun x w b => incstats_central_moment x w b 3) l
      zeroBuf = runUpd incstats_skewness l zeroBuf :=
    runUpd_congr (fun x w b => cm3_eq_skewness x w b) l zeroBuf
  have e4 : runUpd (fun x w b => incstats_central_moment x w b 4) l
      zeroBuf = runUpd incstats_kurtosis l zeroBuf :=
    runUpd_congr (fun x w b => cm4_eq_kurtosis x w b) l zeroBuf
  have hk := kurtosis_run_nonneg l zeroBuf hw (le_refl 0) (le_refl 0)
  have hv4 : 0 ≤ runUpd incstats_kurtosis l zeroBuf 2 /
      runUpd incstats_kurtosis l zeroBuf 0 := div_nonneg hk.2 hk.1
  refine ⟨e2, e3, e4, ?_, ?_, ?_, ?_, ?_, ?_, ?_, ?_, ?_⟩
  · rw [e2, cmFin_raw_mid r _ 2 2 (by omega) (by omega), varFin_slot1]
  · rw [e2, cmFin_at_mean, varFin_slot0]
  · rw [e3, cmFin_raw_mid r _ 3 2 (by omega) (by omega), skewFin_slot1]
  · rw [e3, cmFin_std_mid r _ 3 3 (by omega) (by omega) (by omega),
      skewFin_slot2, sqrt_cube]
  · rw [e3, cmFin_at_mean, skewFin_slot0]
  · rw [e4, cmFin_raw_mid r _ 4 2 (by omega) (by omega), kurtFin_slot1]
  · rw [e4, cmFin_std_mid r _ 4 3 (by omega) (by omega) (by omega),
      kurtFin_slot2, sqrt_cube]
  · rw [e4, cmFin_std_mid r _ 4 4 (by omega) (by omega) (by omega),
      kurtFin_slot3, sqrt_fourth _ hv4]
  · rw [e4, cmFin_at_mean, kurtFin_slot0]

/-- The empty real-valued stream, used in the C1 witness. -/
def emptyStream : List (ℝ × ℝ) := []

/-- Witness for C1 at a concrete input (the empty stream). -/
theorem claim_C1_witness :
    (∀ q ∈ emptyStream, 0 ≤ q.2) ∧
    (runUpd (fun x w b => incstats_central_moment x w b 2) emptyStream zeroBuf =
       runUpd incstats_variance emptyStream zeroBuf ∧
     runUpd (fun x w b => incstats_central_moment x w b 3) emptyStream zeroBuf =
       runUpd incstats_skewness emptyStream zeroBuf ∧
     runUpd (fun x w b => incstats_central_moment x w b 4) emptyStream zeroBuf =
       runUpd incstats_kurtosis emptyStream zeroBuf ∧
     (incstats_central_moment_finalize onesBufR
         (runUpd (fun x w b => incstats_central_moment x w b 2) emptyStream
           zeroBuf) 2 false).1 2 =
       (incstats_variance_finalize onesBufR
         (runUpd incstats_variance emptyStream zeroBuf)).1 1 ∧
     (incstats_central_moment_finalize onesBufR
         (runUpd (fun x w b => incstats_central_moment x w b 2) emptyStream
           zeroBuf) 2 false).1 3 =
       (incstats_variance_finalize onesBufR
         (runUpd incstats_variance emptyStream zeroBuf)).1 0 ∧
     (incstats_central_moment_finalize onesBufR
         (runUpd (fun x w b => incstats_central_moment x w b 3) emptyStream
           zeroBuf) 3 false).1 2 =
       (incstats_skewness_finalize onesBufR
         (runUpd incstats_skewness emptyStream zeroBuf)).1 1 ∧
     (incstats_central_moment_finalize onesBufR
         (runUpd (fun x w b => incstats_central_moment x w b 3) emptyStream
           zeroBuf) 3 true).1 3 =
       (incstats_skewness_finalize onesBufR
         (runUpd incstats_skewness emptyStream zeroBuf)).1 2 ∧
     (incstats_central_moment_finalize onesBufR
         (runUpd (fun x w b => incstats_central_moment x w b 3) emptyStream
           zeroBuf) 3 false).1 4 =
       (incstats_skewness_finalize onesBufR
         (runUpd incstats_skewness emptyStream zeroBuf)).1 0 ∧
     (incstats_central_moment_finalize onesBufR
         (runUpd (fun x w b => incstats_central_moment x w b 4) emptyStream
           zeroBuf) 4 false).1 2 =
       (incstats_kurtosis_finalize onesBufR
         (runUpd incstats_kurtosis emptyStream zeroBuf)).1 1 ∧
     (incstats_central_moment_finalize onesBufR
         (runUpd (fun x w b => incstats_central_moment x w b 4) emptyStream
           zeroBuf) 4 true).1 3 =
       (incstats_kurtosis_finalize onesBufR
         (runUpd incstats_kurtosis emptyStream zeroBuf)).1 2 ∧
     (incstats_central_moment_finalize onesBufR
         (runUpd (fun x w b => incstats_central_moment x w b 4) emptyStream
           zeroBuf) 4 true).1 4 =
       (incstats_kurtosis_finalize onesBufR
         (runUpd incstats_kurtosis emptyStream zeroBuf)).1 3 ∧
     (incstats_central_moment_finalize onesBufR
         (runUpd (fun x w b => incstats_central_moment x w b 4) emptyStream
           zeroBuf) 4 false).1 5 =
       (incstats_kurtosis_finalize onesBufR
         (runUpd incstats_kurtosis emptyStream zeroBuf)).1 0) :=
  ⟨by simp [emptyStream], claim_C1 emptyStream onesBufR false (by simp [emptyStream])⟩

/-- Bounds-checked write for the `List`/`Option` embedding: `l[i] = v`
succeeds only when `i` is in bounds. -/
def setOpt {K : Type} (l : List K) (i : Nat) (v : K) : Option (List K) :=
  if i < l.length then some (l.set i v) else none

/-- The inner `tmp` loop of `incstats_central_moment`, in the bounds-checked
embedding. -/
def tmpLoopOpt {K : Type} [Field K] (x w s : K) (i : Nat) :
    List Nat → K → List K → Option K
  | [], tmp, _ => some tmp
  | k :: L, tmp, buf =>
      (buf[i - k]?).bind fun bik =>
      (buf[1]?).bind fun b1 =>
      tmpLoopOpt x w s i L
        (tmp + (n_choose_k i k : K) * bik *
          incstats_pow (-w * (x - b1) / s) k) buf

/-- `cm_tmp` in the bounds-checked embedding. -/
def cm_tmp_opt {K : Type} [Field K] (x w s : K) (buf : List K) (i : Nat) :
    Option K :=
  tmpLoopOpt x w s i (((List.range (i - 2)).map (fun k => k + 1)).reverse)
    0 buf

/-- The descending loop of `incstats_central_moment`, in the bounds-checked
embedding. -/
def cmLoopOpt {K : Type} [Field K] (x w s : K) :
    List Nat → List K → Option (List K)
  | [], buf => some buf
  | i :: L, buf =>
      (cm_tmp_opt x w s buf i).bind fun tmp =>
      (buf[i]?).bind fun bi =>
      (buf[0]?).bind fun bb0 =>
      (buf[1]?).bind fun bb1 =>
      (setOpt buf i (bi + tmp
        + bb0 * incstats_pow (-w * (x - bb1) / s) i
        + w * incstats_pow (bb0 * (x - bb1) / s) i)).bind fun buf =>
      cmLoopOpt x w s L buf

/-- `incstats_central_moment` in the bounds-checked `List`/`Option`
embedding: every array access is checked, and any out-of-bounds access
yields `none`. -/
def incstats_central_moment_opt {K : Type} [Field K] (x w : K)
    (buffer : List K) (p : Nat) : Option (List K) :=
  (buffer[0]?).bind fun b0 =>
  (cmLoopOpt x w (b0 + w) (descList p) buffer).bind fun buffer =>
  (buffer[1]?).bind fun b1 =>
  (setOpt buffer 1 (b1 + w / (b0 + w) * (x - b1))).bind fun buffer =>
  setOpt buffer 0 (b0 + w)

/-- The raw-moment loop of `incstats_central_moment_finalize`, in the
bounds-checked embedding. -/
def rawLoopOpt {K : Type} [Field K] (buffer : List K) :
    List Nat → List K → Option (List K)
  | [], r => some r
  | i :: L, r =>
      (buffer[i]?).bind fun bi =>
      (buffer[0]?).bind fun b0 =>
      (setOpt r i (bi / b0)).bind fun r =>
      rawLoopOpt buffer L r

/-- The standardization loop of `incstats_central_moment_finalize`, in the
bounds-checked embedding (`c` is `sqrt(variance)`). -/
def stdLoopOpt {K : Type} [Field K] (c : K) :
    List Nat → List K → Option (List K)
  | [], r => some r
  | i :: L, r =>
      (r[i]?).bind fun ri =>
      (setOpt r i (ri / incstats_pow c i)).bind fun r =>
      stdLoopOpt c L r

/-- `incstats_central_moment_finalize` in the bounds-checked
`List`/`Option` embedding.  `sq` abstracts the square-root function (its
values are irrelevant to the access pattern). -/
def incstats_central_moment_finalize_opt {K : Type} [Field K] (sq : K → K)
    (results buffer : List K) (p : Nat) (standardize : Bool) :
    Option (List K) :=
  (setOpt results 0 1).bind fun results =>
  (setOpt results 1 0).bind fun results =>
  (rawLoopOpt buffer (ascList p) results).bind fun results =>
  (if standardize then
      (results[2]?).bind fun variance =>
      stdLoopOpt (sq variance) (List.range (p + 1)) results
    else some results).bind fun results =>
  (buffer[1]?).bind fun b1 =>
  setOpt results (p + 1) b1

/-- C9 counterexample: at order `p = 0` the claimed preconditions
(`buffer` length `≥ p + 1`, `results` length `≥ p + 2`) do not keep all
accesses in bounds: both the update and the finalize read `buffer[1]`,
which requires length `≥ 2 > p + 1`. -/
theorem claim_C9_counterexample :
    incstats_central_moment_opt (1 : ℚ) 1 [0] 0 = none ∧
    incstats_central_moment_finalize_opt (fun v => v) [0, 0] [(0 : ℚ)] 0
      false = none :=
  ⟨rfl, rfl⟩

lemma tmpLoopOpt_isSome {K : Type} [Field K] (x w s : K) (i : Nat) :
    ∀ (L : List Nat) (a : K) (buf : List K), 1 < buf.length →
      i < buf.length → ∃ t, tmpLoopOpt x w s i L a buf = some t := by
  intro L
  induction L with
  | nil => intro a buf _ _; exact ⟨a, rfl⟩
  | cons k L ih =>
    intro a buf h1 hi
    have hik : i - k < buf.length := lt_of_le_of_lt (Nat.sub_le i k) hi
    simp only [tmpLoopOpt, List.getElem?_eq_getElem hik,
      List.getElem?_eq_getElem h1, Option.some_bind']
    exact ih _ buf h1 hi

lemma cm_tmp_opt_isSome {K : Type} [Field K] (x w s : K) (buf : List K)
    (i : Nat) (h1 : 1 < buf.length) (hi : i < buf.length) :
    ∃ t, cm_tmp_opt x w s buf i = some t := by
  unfold cm_tmp_opt
  exact tmpLoopOpt_isSome x w s i _ 0 buf h1 hi

lemma mem_descList (p j : Nat) : j ∈ descList p ↔ 2 ≤ j ∧ j ≤ p := by
  unfold descList
  rw [List.mem_reverse]
  have h := mem_ascList p j
  unfold ascList at h
  exact h

lemma cmLoopOpt_isSome {K : Type} [Field K] (x w s : K) :
    ∀ (L : List Nat) (buf : List K), 1 < buf.length →
      (∀ i ∈ L, i < buf.length) →
      ∃ out, cmLoopOpt x w s L buf = some out ∧
        out.length = buf.length := by
  intro L
  induction L with
  | nil => intro buf _ _; exact ⟨buf, rfl, rfl⟩
  | cons i L ih =>
    intro buf h1 hL
    have hi : i < buf.length := hL i (by simp)
    have h0 : 0 < buf.length := by omega
    obtain ⟨t, ht⟩ := cm_tmp_opt_isSome x w s buf i h1 hi
    simp only [cmLoopOpt, ht, List.getElem?_eq_getElem hi,
      List.getElem?_eq_getElem h0, List.getElem?_eq_getElem h1,
      Option.some_bind', setOpt]
    rw [if_pos (by simp [hi])]
    simp only [Option.some_bind']
    obtain ⟨out, hout, hlen⟩ := ih (buf.set i _) (by simpa using h1)
      (fun m hm => by simpa using hL m (List.mem_cons_of_mem i hm))
    exact ⟨out, hout, by simpa using hlen⟩

lemma rawLoopOpt_isSome {K : Type} [Field K] (buffer : List K)
    (h0 : 0 < buffer.length) :
    ∀ (L : List Nat) (r : List K),
      (∀ i ∈ L, i < r.length ∧ i < buffer.length) →
      ∃ out, rawLoopOpt buffer L r = some out ∧
        out.length = r.length := by
  intro L
  induction L with
  | nil => intro r _; exact ⟨r, rfl, rfl⟩
  | cons i L ih =>
    intro r hL
    have hi := hL i (by simp)
    simp only [rawLoopOpt, List.getElem?_eq_getElem hi.2,
      List.getElem?_eq_getElem h0, Option.some_bind', setOpt]
    rw [if_pos (by simp [hi.1])]
    simp only [Option.some_bind']
    obtain ⟨out, hout, hlen⟩ := ih (r.set i _)
      (fun m hm => by
        have h := hL m (List.mem_cons_of_mem i hm)
        simpa using h)
    exact ⟨out, hout, by simpa using hlen⟩

lemma stdLoopOpt_isSome {K : Type} [Field K] (c : K) :
    ∀ (L : List Nat) (r : List K), (∀ i ∈ L, i < r.length) →
      ∃ out, stdLoopOpt c L r = some out ∧ out.length = r.length := by
  intro L
  induction L with
  | nil => intro r _; exact ⟨r, rfl, rfl⟩
  | cons i L ih =>
    intro r hL
    have hi : i < r.length := hL i (by simp)
    simp only [stdLoopOpt, List.getElem?_eq_getElem hi,
      Option.some_bind', setOpt]
    rw [if_pos (by simp [hi])]
    simp only [Option.some_bind']
    obtain ⟨out, hout, hlen⟩ := ih (r.set i _)
      (fun m hm => by simpa using hL m (List.mem_cons_of_mem i hm))
    exact ⟨out, hout, by simpa using hlen⟩

/-- C9 amended: for every order `p ≥ 1`, a buffer of length `≥ p + 1`
keeps every access of the generalized update in bounds, and a results
array of length `≥ p + 2` together with a buffer of length `≥ p + 1`
keeps every access of the generalized finalize in bounds. -/
theorem claim_C9_amended (K : Type) [Field K] (sq : K → K) (x w : K)
    (buffer results : List K) (p : Nat) (std : Bool) (hp : 1 ≤ p)
    (hbuf : p + 1 ≤ buffer.length) (hres : p + 2 ≤ results.length) :
    (incstats_central_moment_opt x w buffer p).isSome = true ∧
    (incstats_central_moment_finalize_opt sq results buffer p
      std).isSome = true := by
  have h1 : 1 < buffer.length := by omega
  have h0 : 0 < buffer.length := by omega
  constructor
  · obtain ⟨out, hout, hlen⟩ := cmLoopOpt_isSome x w (buffer[0] + w)
      (descList p) buffer h1
      (fun i hi => by
        have h := (mem_descList p i).mp hi
        omega)
    simp only [incstats_central_moment_opt,
      List.getElem?_eq_getElem h0, Option.some_bind', hout]
    have h1' : 1 < out.length := by omega
    simp only [List.getElem?_eq_getElem h1', Option.some_bind', setOpt]
    rw [if_pos (by simpa using h1')]
    simp only [Option.some_bind']
    rw [if_pos (by simpa using h0.trans_le (le_of_eq hlen.symm))]
    rfl
  · have hset2 : ((results.set 0 1).set 1 (0 : K)).length =
        results.length := by simp
    obtain ⟨out, hout, hlen⟩ := rawLoopOpt_isSome buffer h0 (ascList p)
      ((results.set 0 1).set 1 0)
      (fun i hi => by
        have h := (mem_ascList p i).mp hi
        constructor
        · rw [hset2]; omega
        · omega)
    simp only [incstats_central_moment_finalize_opt, setOpt]
    rw [if_pos (by omega)]
    simp only [Option.some_bind']
    rw [if_pos (by simp; omega)]
    simp only [Option.some_bind', hout]
    have hout2 : 2 < out.length := by rw [hlen, hset2]; omega
    have hstd : ∃ res2, (if std then
        (out[2]?).bind fun variance =>
        stdLoopOpt (sq variance) (List.range (p + 1)) out
      else some out) = some res2 ∧ res2.length = out.length := by
      cases std with
      | false => exact ⟨out, rfl, rfl⟩
      | true =>
        rw [if_pos rfl]
        simp only [List.getElem?_eq_getElem hout2, Option.some_bind']
        obtain ⟨res2, hres2, hlen2⟩ := stdLoopOpt_isSome (sq out[2])
          (List.range (p + 1)) out
          (fun i hi => by
            rw [hlen, hset2]
            simp at hi
            omega)
        exact ⟨res2, hres2, hlen2⟩
    obtain ⟨res2, hres2, hlen2⟩ := hstd
    simp only [hres2, Option.some_bind', List.getElem?_eq_getElem h1,
      setOpt]
    rw [if_pos (by rw [hlen2, hlen, hset2]; omega)]
    rfl

/-- Witness for the amended C9 at a concrete input. -/
theorem claim_C9_amended_witness :
    (1 ≤ 1 ∧ 1 + 1 ≤ [(0 : ℚ), 0].length ∧
      1 + 2 ≤ [(0 : ℚ), 0, 0].length) ∧
    ((incstats_central_moment_opt (1 : ℚ) 1 [0, 0] 1).isSome = true ∧
     (incstats_central_moment_finalize_opt (fun v => v) [(0 : ℚ), 0, 0]
       [0, 0] 1 true).isSome = true) :=
  ⟨⟨by decide, by decide, by decide⟩,
   claim_C9_amended ℚ (fun v => v) 1 1 [0, 0] [0, 0, 0] 1 true (by decide)
     (by decide) (by decide)⟩

end Incstats
